import Mathlib

/-!
Verification development for the yars media extraction and resolution pipeline
(src/yars/media_scraping_utils.py and src/yars/utils.py).

The Python code operates on loosely-typed JSON trees; we embed JSON values as
`JVal` and model Python semantics explicitly: truthiness, `dict.get` with a
default, subscripting, the `in` operator, iteration, and the exceptions raised
when an operation is applied to a value of the wrong shape (`AttributeError`,
`TypeError`, `KeyError`, `IndexError`).  Fallible code runs in `Except PyErr`.
-/

/-- A JSON value, as produced by Python's `json` module. -/
inductive JVal where
  | null
  | bool (b : Bool)
  | num (n : Int)
  | str (s : String)
  | arr (xs : List JVal)
  | obj (kvs : List (String × JVal))

/-- Python exceptions that the modelled operations can raise. -/
inductive PyErr where
  | attributeError
  | typeError
  | keyError
  | indexError
deriving DecidableEq

/-- Python truthiness of a JSON value (`bool(v)`). -/
def JVal.truthy : JVal → Bool
  | .null => false
  | .bool b => b
  | .num n => n != 0
  | .str s => !s.isEmpty
  | .arr xs => !xs.isEmpty
  | .obj kvs => !kvs.isEmpty

/-- Python `a or b` on JSON values: `a` when truthy, else `b`. -/
def JVal.pyOr (a b : JVal) : JVal := if a.truthy then a else b

/-- First value bound to key `k` in an association list (Python dict lookup;
JSON object keys are unique, so first-match is the dict entry). -/
def objGet? (kvs : List (String × JVal)) (k : String) : Option JVal :=
  (kvs.find? (fun kv => kv.1 == k)).map (fun kv => kv.2)

/-- Python `v.get(k, dflt)`: dictionary lookup with default; raises
`AttributeError` when the receiver is not a dict. -/
def JVal.get (v : JVal) (k : String) (dflt : JVal) : Except PyErr JVal :=
  match v with
  | .obj kvs => .ok ((objGet? kvs k).getD dflt)
  | _ => .error .attributeError

/-- Python `v[k]` subscripting with a string key. -/
def JVal.index (v : JVal) (k : String) : Except PyErr JVal :=
  match v with
  | .obj kvs =>
    match objGet? kvs k with
    | some x => .ok x
    | none => .error .keyError
  | _ => .error .typeError

/-- Does the character list `p` occur at the start of `cs`? -/
def startsWithChars : List Char → List Char → Bool
  | [], _ => true
  | _ :: _, [] => false
  | p :: ps, c :: cs => p == c && startsWithChars ps cs

/-- Does `needle` occur as a contiguous run inside `hay`? -/
def hasSubChars (needle : List Char) : List Char → Bool
  | [] => needle.isEmpty
  | c :: rest => startsWithChars needle (c :: rest) || hasSubChars needle rest

/-- Python `needle in hay` on strings (substring containment). -/
def hasSub (needle hay : String) : Bool := hasSubChars needle.toList hay.toList

def lowerList (cs : List Char) : List Char := cs.map Char.toLower

/-- Python `s.lower()` (ASCII case folding, as in the URLs at hand). -/
def lowerStr (s : String) : String := String.mk (lowerList s.toList)

/-- Is `p` a (contiguous) suffix of `l`? -/
def endsWithChars (p : List Char) : List Char → Bool
  | [] => p == ([] : List Char)
  | c :: t => p == c :: t || endsWithChars p t

/-- Python `s.endswith(suf)`. -/
def endsWithStr (s suf : String) : Bool := endsWithChars suf.toList s.toList

/-- Python `v == k` where `k` is a string literal. -/
def eqStr : JVal → String → Bool
  | .str s, k => s == k
  | _, _ => false

/-- Python `k in v`: dict-key membership, substring test on strings,
element membership on lists; `TypeError` otherwise. -/
def pyIn (k : String) (v : JVal) : Except PyErr Bool :=
  match v with
  | .obj kvs => .ok (kvs.any (fun kv => kv.1 == k))
  | .str s => .ok (hasSub k s)
  | .arr xs => .ok (xs.any (fun x => eqStr x k))
  | _ => .error .typeError

/-- Python `for x in v`: lists yield their elements, strings their
one-character strings, dicts their keys; `TypeError` otherwise. -/
def pyIter : JVal → Except PyErr (List JVal)
  | .arr xs => .ok xs
  | .str s => .ok (s.toList.map (fun c => .str (String.mk [c])))
  | .obj kvs => .ok (kvs.map (fun kv => .str kv.1))
  | _ => .error .typeError

/-- Python `v[0]`. -/
def pyIndex0 : JVal → Except PyErr JVal
  | .arr (x :: _) => .ok x
  | .arr [] => .error .indexError
  | .str s =>
    match s.toList with
    | c :: _ => .ok (.str (String.mk [c]))
    | [] => .error .indexError
  | .obj _ => .error .keyError
  | _ => .error .typeError

/-- Python `v.lower()`: `AttributeError` on non-strings. -/
def pyLower : JVal → Except PyErr String
  | .str s => .ok (lowerStr s)
  | _ => .error .attributeError

/-- Passing a value where `re.search` needs a string: `TypeError` otherwise. -/
def asStr : JVal → Except PyErr String
  | .str s => .ok s
  | _ => .error .typeError

/-- Python `v.get(k)` on a dict where the key may be any JSON value
(`media_metadata.get(media_id)`): list/dict keys are unhashable
(`TypeError`); other non-string keys are simply absent from a JSON-keyed
dict. -/
def pyDictGetKey (d : JVal) (k : JVal) : Except PyErr JVal :=
  match d with
  | .obj kvs =>
    match k with
    | .str s => .ok ((objGet? kvs s).getD .null)
    | .arr _ => .error .typeError
    | .obj _ => .error .typeError
    | _ => .ok .null
  | _ => .error .attributeError

def isNullB : JVal → Bool
  | .null => true
  | _ => false

def isObjB : JVal → Bool
  | .obj _ => true
  | _ => false

def isStrB : JVal → Bool
  | .str _ => true
  | _ => false

def optStr : Option String → JVal
  | some s => .str s
  | none => .null

/-! ## The regex helpers of media_scraping_utils.py

`re.search` scans start positions left to right and returns the first match.
Each pattern of the source is compiled by hand into a position matcher plus
the generic scanner `reSearch`. -/

/-- `[a-zA-Z0-9]` (ASCII, as in Python's pattern classes). -/
def isAlnumChar (c : Char) : Bool :=
  (('a' ≤ c && c ≤ 'z') || ('A' ≤ c && c ≤ 'Z') || ('0' ≤ c && c ≤ '9'))

/-- `[A-Za-z0-9_-]`. -/
def isSlugChar (c : Char) : Bool := isAlnumChar c || c == '_' || c == '-'

/-- Leftmost-match scanner: try the position matcher `f` at every suffix. -/
def reSearch (f : List Char → Option String) : List Char → Option String
  | [] => f []
  | c :: rest =>
    match f (c :: rest) with
    | some r => some r
    | none => reSearch f rest

/-- Position matcher for `(?:preview|i)\.redd\.it/([a-zA-Z0-9]+)`. -/
def matchRedditIdAt (cs : List Char) : Option String :=
  if startsWithChars "preview.redd.it/".toList cs then
    let run := (cs.drop "preview.redd.it/".toList.length).takeWhile isAlnumChar
    if run.isEmpty then none else some (String.mk run)
  else if startsWithChars "i.redd.it/".toList cs then
    let run := (cs.drop "i.redd.it/".toList.length).takeWhile isAlnumChar
    if run.isEmpty then none else some (String.mk run)
  else none

/-- `extract_media_id_from_url` (media_scraping_utils.py lines 4-9). -/
def extract_media_id_from_url (url : String) : Option String :=
  reSearch matchRedditIdAt url.toList

/-- The alternation `(jpg|jpeg|png|gif|webp|mp4|mov)` in source order. -/
def extWhitelist : List String := ["jpg", "jpeg", "png", "gif", "webp", "mp4", "mov"]

/-- The terminator `(?:\?|$)` at a position: a literal `?`, or Python's `$`,
which matches at the end of the input or just before a newline that ends the
input (so exactly one character left and it is a newline). -/
def extTermAt : List Char → Bool
  | [] => true
  | [c] => c == '?' || c == '\n'
  | c :: _ :: _ => c == '?'

/-- After the literal dot: does whitelist entry `e` match here
(case-insensitively) followed by the terminator `(?:\?|$)`? -/
def extCondAt (rest : List Char) (e : String) : Bool :=
  (rest.take e.toList.length).map Char.toLower == e.toList &&
  extTermAt (rest.drop e.toList.length)

/-- Position matcher for `\.(jpg|jpeg|png|gif|webp|mp4|mov)(?:\?|$)` with
`re.IGNORECASE`; `group(1).lower()` is the whitelist entry itself. -/
def matchExtAt : List Char → Option String
  | '.' :: rest =>
    extWhitelist.findSome? (fun e => if extCondAt rest e then some e else none)
  | _ => none

/-- `extract_media_file_extension_from_url` (media_scraping_utils.py
lines 11-16). -/
def extract_media_file_extension_from_url (url : String) : Option String :=
  reSearch matchExtAt url.toList

/-- Position matcher for `redgifs\.com/(?:watch|ifr)/([A-Za-z0-9_-]+)`. -/
def matchRedgifsWatchAt (cs : List Char) : Option String :=
  if startsWithChars "redgifs.com/watch/".toList cs then
    let run := (cs.drop "redgifs.com/watch/".toList.length).takeWhile isSlugChar
    if run.isEmpty then none else some (String.mk run)
  else if startsWithChars "redgifs.com/ifr/".toList cs then
    let run := (cs.drop "redgifs.com/ifr/".toList.length).takeWhile isSlugChar
    if run.isEmpty then none else some (String.mk run)
  else none

/-- Position matcher for `/([A-Za-z0-9]+)-poster\.`: the greedy `[A-Za-z0-9]+`
must be the maximal alphanumeric run (a shorter run would be followed by an
alphanumeric character, never the literal `-`). -/
def matchPosterAt : List Char → Option String
  | '/' :: rest =>
    let run := rest.takeWhile isAlnumChar
    if run.isEmpty then none
    else if startsWithChars "-poster.".toList (rest.drop run.length) then
      some (String.mk run)
    else none
  | _ => none

/-- `extract_redgifs_id_from_url` (media_scraping_utils.py lines 90-102);
takes the JSON value handed to it by `extract_redgifs_media` (`if not url`
guards falsy values, then `re.search` needs a string). -/
def extract_redgifs_id_from_url (url : JVal) : Except PyErr (Option String) :=
  if !url.truthy then .ok none
  else
    match asStr url with
    | .error e => .error e
    | .ok s =>
      match reSearch matchRedgifsWatchAt s.toList with
      | some r => .ok (some r)
      | none => .ok (reSearch matchPosterAt s.toList)

/-! ## Descriptors and post metadata -/

/-- The `meta` dict built in `extract_reddit_media` (lines 240-246). -/
structure PostMeta where
  title : JVal
  permalink : JVal
  subreddit : JVal
  author : JVal
  id : JVal

/-- A media descriptor: the dicts appended by the extraction rules.  The keys
`redgifs_id` and `provider` exist only on descriptors of the RedGIFs rule, so
they are `Option`-valued (absent key = `none`). -/
structure Desc where
  title : JVal
  permalink : JVal
  subreddit : JVal
  author : JVal
  id : JVal
  type : String
  url : JVal
  media_id : JVal
  extension : JVal
  redgifs_id : Option JVal := none
  provider : Option JVal := none

/-- `{**meta, "type": ty, "url": u, "media_id": mid, "extension": ext}`. -/
def PostMeta.desc (m : PostMeta) (ty : String) (u mid ext : JVal) : Desc :=
  { title := m.title, permalink := m.permalink, subreddit := m.subreddit,
    author := m.author, id := m.id, type := ty, url := u,
    media_id := mid, extension := ext }

/-- `extract_media_file_extension_from_url` applied to a JSON value. -/
def extFromJ (v : JVal) : Except PyErr (Option String) :=
  match asStr v with
  | .error e => .error e
  | .ok s => .ok (extract_media_file_extension_from_url s)

/-- `extract_media_id_from_url` applied to a JSON value. -/
def midFromJ (v : JVal) : Except PyErr (Option String) :=
  match asStr v with
  | .error e => .error e
  | .ok s => .ok (extract_media_id_from_url s)

/-! ## The extraction rules -/

/-- Body of the `for item in gallery_items` loop of `extract_gallery_media`
(lines 28-46): yields `some` descriptor, `none` for a skipped item, or raises. -/
def galleryItem (mm : JVal) (meta : PostMeta) (item : JVal) :
    Except PyErr (Option Desc) :=
  match item.get "media_id" .null with
  | .error e => .error e
  | .ok media_id =>
    if isNullB mm || isNullB media_id then .ok none
    else
      match pyDictGetKey mm media_id with
      | .error e => .error e
      | .ok meta_info =>
        if !meta_info.truthy then .ok none
        else
          match meta_info.get "e" .null with
          | .error e => .error e
          | .ok media_type =>
            match meta_info.get "s" (.obj []) with
            | .error e => .error e
            | .ok source =>
              if eqStr media_type "Image" then
                match pyIn "u" source with
                | .error e => .error e
                | .ok hasU =>
                  if hasU then
                    match source.get "u" (.str "") with
                    | .error e => .error e
                    | .ok uG =>
                      match extFromJ uG with
                      | .error e => .error e
                      | .ok ext =>
                        match source.index "u" with
                        | .error e => .error e
                        | .ok u =>
                          .ok (some (meta.desc "image" u media_id (optStr ext)))
                  else .ok none
              else if eqStr media_type "Video" then
                match source.get "mp4" .null with
                | .error e => .error e
                | .ok mp4 =>
                  match (if mp4.truthy then .ok mp4
                         else source.get "u" .null : Except PyErr JVal) with
                  | .error e => .error e
                  | .ok vurl =>
                    if vurl.truthy then
                      match extFromJ vurl with
                      | .error e => .error e
                      | .ok ext =>
                        .ok (some (meta.desc "video" vurl media_id (optStr ext)))
                    else .ok none
              else .ok none

/-- The gallery loop, in item order; a skipped item contributes nothing. -/
def galleryLoop (mm : JVal) (meta : PostMeta) :
    List JVal → Except PyErr (List Desc)
  | [] => .ok []
  | it :: rest =>
    match galleryItem mm meta it with
    | .error e => .error e
    | .ok d? =>
      match galleryLoop mm meta rest with
      | .error e => .error e
      | .ok tail =>
        match d? with
        | some d => .ok (d :: tail)
        | none => .ok tail

/-- `extract_gallery_media` (media_scraping_utils.py lines 19-48). -/
def extract_gallery_media (data : JVal) (meta : PostMeta) :
    Except PyErr (List Desc) :=
  match data.get "is_gallery" .null with
  | .error e => .error e
  | .ok isG =>
    match (if isG.truthy then pyIn "media_metadata" data
           else .ok false : Except PyErr Bool) with
    | .error e => .error e
    | .ok cond =>
      if !cond then .ok []
      else
        match data.index "media_metadata" with
        | .error e => .error e
        | .ok mm =>
          match data.get "gallery_data" (.obj []) with
          | .error e => .error e
          | .ok gd0 =>
            match (gd0.pyOr (.obj [])).get "items" (.arr []) with
            | .error e => .error e
            | .ok gitems =>
              match pyIter gitems with
              | .error e => .error e
              | .ok items => galleryLoop mm meta items

/-- `extract_single_image` (media_scraping_utils.py lines 51-58). -/
def extract_single_image (data : JVal) (meta : PostMeta) :
    Except PyErr (List Desc) :=
  match data.get "url_overridden_by_dest" (.str "") with
  | .error e => .error e
  | .ok (.str s) =>
    if endsWithStr s ".jpg" || endsWithStr s ".jpeg" || endsWithStr s ".png" ||
       endsWithStr s ".gif" || endsWithStr s ".webp" then
      .ok [meta.desc "image" (.str s)
        (optStr (extract_media_id_from_url s))
        (optStr (extract_media_file_extension_from_url s))]
    else .ok []
  | .ok _ => .error .attributeError

/-- `extract_single_video` (media_scraping_utils.py lines 61-73), body after
`media = data.get("media") or data.get("secure_media")` is resolved. -/
def single_video_from (media : JVal) (meta : PostMeta) : Except PyErr (List Desc) :=
  if !media.truthy then .ok []
  else
    match media.get "reddit_video" .null with
    | .error e => .error e
    | .ok rv =>
      match (if rv.truthy then pyIn "fallback_url" rv
             else .ok false : Except PyErr Bool) with
      | .error e => .error e
      | .ok cond =>
        if cond then
          match rv.index "fallback_url" with
          | .error e => .error e
          | .ok url =>
            match midFromJ url with
            | .error e => .error e
            | .ok mid =>
              match extFromJ url with
              | .error e => .error e
              | .ok ext => .ok [meta.desc "video" url (optStr mid) (optStr ext)]
        else .ok []

/-- `extract_single_video` (media_scraping_utils.py lines 61-73). -/
def extract_single_video (data : JVal) (meta : PostMeta) :
    Except PyErr (List Desc) :=
  match data.get "media" .null with
  | .error e => .error e
  | .ok m1 =>
    match (if m1.truthy then .ok m1
           else data.get "secure_media" .null : Except PyErr JVal) with
    | .error e => .error e
    | .ok media => single_video_from media meta

/-- `extract_fallback_preview` (media_scraping_utils.py lines 76-87). -/
def extract_fallback_preview (data : JVal) (meta : PostMeta) :
    Except PyErr (List Desc) :=
  match data.get "preview" (.obj []) with
  | .error e => .error e
  | .ok preview =>
    match preview.get "images" (.arr []) with
    | .error e => .error e
    | .ok images =>
      if images.truthy then
        match pyIndex0 images with
        | .error e => .error e
        | .ok first =>
          match first.get "source" (.obj []) with
          | .error e => .error e
          | .ok source =>
            match pyIn "url" source with
            | .error e => .error e
            | .ok cond =>
              if cond then
                match source.index "url" with
                | .error e => .error e
                | .ok url =>
                  match midFromJ url with
                  | .error e => .error e
                  | .ok mid =>
                    match extFromJ url with
                    | .error e => .error e
                    | .ok ext => .ok [meta.desc "image" url (optStr mid) (optStr ext)]
              else .ok []
      else .ok []

/-- The descriptor appended by `extract_redgifs_media` (lines 214-223). -/
def redgifsDesc (meta : PostMeta) (rid : String) : Desc :=
  { title := meta.title, permalink := meta.permalink, subreddit := meta.subreddit,
    author := meta.author, id := meta.id, type := "video", url := .null,
    media_id := .str rid, redgifs_id := some (.str rid),
    extension := .str "mp4", provider := some (.str "redgifs") }

/-- Lines 179-184: `oembed` nested under `secure_media` (isinstance-guarded),
with `media` as second choice when the first is falsy. -/
def redgifsOembed1 (secure_media : JVal) : Except PyErr JVal :=
  if isObjB secure_media then
    match secure_media.get "oembed" .null with
    | .error e => .error e
    | .ok o => .ok (o.pyOr (.obj []))
  else .ok (JVal.obj [])

def redgifsOembed (media secure_media : JVal) : Except PyErr JVal :=
  match redgifsOembed1 secure_media with
  | .error e => .error e
  | .ok oembed1 =>
    if !oembed1.truthy && isObjB media then
      match media.get "oembed" .null with
      | .error e => .error e
      | .ok o => .ok (o.pyOr (.obj []))
    else .ok oembed1

/-- Line 186: `media_embed.get("content", "") or oembed.get("html", "") or ""`
with Python's short-circuiting `or` (the second operand is only evaluated,
and can only raise, when the first is falsy). -/
def redgifsContentHtml (media_embed oembed : JVal) : Except PyErr JVal :=
  match media_embed.get "content" (.str "") with
  | .error e => .error e
  | .ok ch1 =>
    if ch1.truthy then .ok ch1
    else
      match oembed.get "html" (.str "") with
      | .error e => .error e
      | .ok ch2 => .ok (ch2.pyOr (.str ""))

/-- Lines 188-194: the five detection signals, evaluated in source order with
Python's short-circuiting. -/
def redgifsDetected (domain : String) (url content_html secure_media oembed : JVal) :
    Except PyErr Bool :=
  match (if hasSub "redgifs" domain then .ok true
         else
           match pyIn "redgifs.com" url with
           | .error e => .error e
           | .ok b =>
             if b then .ok true
             else pyIn "redgifs.com" content_html : Except PyErr Bool) with
  | .error e => .error e
  | .ok det1 =>
    match secure_media.get "type" .null with
    | .error e => .error e
    | .ok smType =>
      match oembed.get "provider_name" .null with
      | .error e => .error e
      | .ok pn =>
        if pn.truthy then
          match oembed.get "provider_name" (.str "") with
          | .error e => .error e
          | .ok pn2 =>
            match pyLower pn2 with
            | .error e => .error e
            | .ok low =>
              .ok ((det1 || eqStr smType "redgifs.com") || hasSub "redgif" low)
        else .ok (det1 || eqStr smType "redgifs.com")

/-- Line 200: the id search chain
`extract_redgifs_id_from_url(url) or ...(content_html) or ...(thumbnail_url)`. -/
def redgifsFindId (url content_html oembed : JVal) : Except PyErr (Option String) :=
  match extract_redgifs_id_from_url url with
  | .error e => .error e
  | .ok (some r) => .ok (some r)
  | .ok none =>
    match extract_redgifs_id_from_url content_html with
    | .error e => .error e
    | .ok (some r) => .ok (some r)
    | .ok none =>
      match oembed.get "thumbnail_url" (.str "") with
      | .error e => .error e
      | .ok tu => extract_redgifs_id_from_url tu

/-- `extract_redgifs_media` (media_scraping_utils.py lines 164-224). -/
def extract_redgifs_media (data : JVal) (meta : PostMeta) :
    Except PyErr (List Desc) :=
  if !data.truthy then .ok []
  else
    match data.get "domain" .null with
    | .error e => .error e
    | .ok d0 =>
      match pyLower (d0.pyOr (.str "")) with
      | .error e => .error e
      | .ok domain =>
        match data.get "url_overridden_by_dest" (.str "") with
        | .error e => .error e
        | .ok u0 =>
          match data.get "media" .null with
          | .error e => .error e
          | .ok m0 =>
            match data.get "secure_media" .null with
            | .error e => .error e
            | .ok sm0 =>
              match data.get "media_embed" .null with
              | .error e => .error e
              | .ok me0 =>
                match redgifsOembed (m0.pyOr (.obj [])) (sm0.pyOr (.obj [])) with
                | .error e => .error e
                | .ok oembed =>
                  match redgifsContentHtml (me0.pyOr (.obj [])) oembed with
                  | .error e => .error e
                  | .ok content_html =>
                    match redgifsDetected domain (u0.pyOr (.str "")) content_html
                        (sm0.pyOr (.obj [])) oembed with
                    | .error e => .error e
                    | .ok detected =>
                      if !detected then .ok []
                      else
                        match redgifsFindId (u0.pyOr (.str "")) content_html oembed with
                        | .error e => .error e
                        | .ok none => .ok []
                        | .ok (some rid) => .ok [redgifsDesc meta rid]

/-! ## extract_reddit_media -/

/-- Python `repr` quoting of a string: double quotes when the text holds a
single quote and no double quote, else single quotes (escape sequences inside
the body are not modelled; no theorem below depends on them). -/
def pyStrQuote (s : String) : String :=
  let sq := String.mk [Char.ofNat 39]
  let dq := String.mk [Char.ofNat 34]
  if s.toList.contains (Char.ofNat 39) && !s.toList.contains (Char.ofNat 34) then
    dq ++ s ++ dq
  else sq ++ s ++ sq

mutual
/-- Python `repr` of a JSON value. -/
def pyRepr : JVal → String
  | .null => "None"
  | .bool true => "True"
  | .bool false => "False"
  | .num n => toString n
  | .str s => pyStrQuote s
  | .arr xs => "[" ++ pyReprArr xs ++ "]"
  | .obj kvs => "\x7b" ++ pyReprObj kvs ++ "\x7d"

def pyReprArr : List JVal → String
  | [] => ""
  | [v] => pyRepr v
  | v :: rest => pyRepr v ++ ", " ++ pyReprArr rest

def pyReprObj : List (String × JVal) → String
  | [] => ""
  | [(k, v)] => pyStrQuote k ++ ": " ++ pyRepr v
  | (k, v) :: rest => pyStrQuote k ++ ": " ++ pyRepr v ++ ", " ++ pyReprObj rest
end

/-- Python `str`, as used by the f-string interpolation for `permalink`. -/
def pyStr : JVal → String
  | .str s => s
  | v => pyRepr v

/-- The `meta` construction of `extract_reddit_media` (lines 240-246); the
permalink is interpolated into `f"https://www.reddit.com{...}"`. -/
def metaOf (data : JVal) : Except PyErr PostMeta :=
  match data.get "title" (.str "") with
  | .error e => .error e
  | .ok title =>
    match data.get "permalink" (.str "") with
    | .error e => .error e
    | .ok plink =>
      match data.get "subreddit" (.str "") with
      | .error e => .error e
      | .ok subreddit =>
        match data.get "author" (.str "") with
        | .error e => .error e
        | .ok author =>
          match data.get "id" (.str "") with
          | .error e => .error e
          | .ok pid =>
            .ok { title := title,
                  permalink := .str ("https://www.reddit.com" ++ pyStr plink),
                  subreddit := subreddit, author := author, id := pid }

/-- `extract_reddit_media` (media_scraping_utils.py lines 227-262): the fixed
rule chain, concatenating every rule's result in order (extending by an empty
list is a no-op, so the `if media_items` guard does not change the value). -/
def extract_reddit_media (post_json : JVal) : Except PyErr (List Desc) :=
  match post_json.get "data" (.obj []) with
  | .error e => .error e
  | .ok data =>
    match metaOf data with
    | .error e => .error e
    | .ok meta =>
      match extract_redgifs_media data meta with
      | .error e => .error e
      | .ok r1 =>
        match extract_gallery_media data meta with
        | .error e => .error e
        | .ok r2 =>
          match extract_single_image data meta with
          | .error e => .error e
          | .ok r3 =>
            match extract_single_video data meta with
            | .error e => .error e
            | .ok r4 =>
              match extract_fallback_preview data meta with
              | .error e => .error e
              | .ok r5 => .ok (r1 ++ r2 ++ r3 ++ r4 ++ r5)

/-! ## RedGIFs resolution (media_scraping_utils.py lines 105-161)

Network calls are abstracted by an environment: `apiGet` is the outcome of
`requests.get(...)` + `raise_for_status()` + `.json()` (`none` for any
exception on that path, `some` for the parsed body), and `headStatus` the
outcome of `requests.head(c)` (`none` for an exception, `some code` for a
response with that status code). -/

/-- Characters of `s` before the first occurrence of `pat` (Python
`s.split(pat)[0]`, case-sensitive). -/
def takeUntilSub (pat : List Char) : List Char → List Char
  | [] => []
  | c :: rest =>
    if startsWithChars pat (c :: rest) then []
    else c :: takeUntilSub pat rest

/-- The string case of `_find_first_mp4`: a string ending in `.mp4`
(case-insensitively) is returned whole; otherwise a string containing
`.mp4?` is cut after the (case-sensitive) `.mp4` it contains. -/
def strFindMp4 (s : String) : Option String :=
  if endsWithChars ".mp4".toList (lowerList s.toList) then some s
  else if hasSub ".mp4?" (lowerStr s) then
    some (String.mk (takeUntilSub ".mp4".toList s.toList) ++ ".mp4")
  else none

mutual
/-- `_find_first_mp4` (lines 105-124): depth-first, first hit wins. -/
def findFirstMp4 : JVal → Option String
  | .str s => strFindMp4 s
  | .obj kvs => findFirstMp4Obj kvs
  | .arr xs => findFirstMp4Arr xs
  | .null => none
  | .bool _ => none
  | .num _ => none

def findFirstMp4Obj : List (String × JVal) → Option String
  | [] => none
  | (_, v) :: rest =>
    match findFirstMp4 v with
    | some u => some u
    | none => findFirstMp4Obj rest

def findFirstMp4Arr : List JVal → Option String
  | [] => none
  | v :: rest =>
    match findFirstMp4 v with
    | some u => some u
    | none => findFirstMp4Arr rest
end

/-- Abstract network for `get_redgifs_mp4_url`. -/
structure HttpEnv where
  apiGet : String → Option JVal
  headStatus : String → Option Int

/-- The fixed ordered CDN guess list (lines 149-153). -/
def redgifsCandidates (red_id : String) : List String :=
  ["https://thumbs2.redgifs.com/" ++ red_id ++ ".mp4",
   "https://thumbs2.redgifs.com/" ++ red_id ++ "-mobile.mp4",
   "https://thumbs1.redgifs.com/" ++ red_id ++ ".mp4"]

/-- `get_redgifs_mp4_url` (lines 127-161): API lookup first (any exception
falls through), then the recursive mp4 scan; a hit returns immediately, and
otherwise each CDN candidate is probed with `HEAD`, accepting the first
status-200 answer; probe exceptions and non-200 statuses are skipped. -/
def get_redgifs_mp4_url (env : HttpEnv) (red_id : String) : Option String :=
  if red_id.isEmpty then none
  else
    let api := "https://api.redgifs.com/v2/gifs/" ++ red_id
    let fromApi :=
      match env.apiGet api with
      | some data => findFirstMp4 data
      | none => none
    match fromApi with
    | some u => some u
    | none =>
      (redgifsCandidates red_id).find? (fun c => env.headStatus c == some 200)

/-! ## Downloaders (utils.py lines 51-155)

Each downloader is modelled over an environment describing the outcomes of
its I/O steps; the result distinguishes a returned value (the output path or
`None`) from a propagated exception, and the second component records whether
the call created the missing parent directories of the target path. -/

/-- Outcome of `session.get(...)` + `raise_for_status()`. -/
inductive FetchR where
  | ok
  | reqExc
  | otherExc
deriving DecidableEq

/-- What a downloader call does: return a value or propagate an exception. -/
inductive DlResult where
  | ret (path : Option Unit)
  | exc
deriving DecidableEq

structure DlEnv where
  fetch : FetchR
  parentExists : Bool
  mkdirRaises : Bool
  writeRaises : Bool

/-- `download_image` (utils.py lines 51-68): no directory creation; the
`try` spans the fetch and the file write, `except RequestException` and
`except Exception` both return `None`.  Opening the target with a missing
parent raises `FileNotFoundError`, caught by the second handler. -/
def download_image (env : DlEnv) : DlResult × Bool :=
  match env.fetch with
  | .reqExc => (.ret none, false)
  | .otherExc => (.ret none, false)
  | .ok =>
    if !env.parentExists then (.ret none, false)
    else if env.writeRaises then (.ret none, false)
    else (.ret (some ()), false)

/-- `download_video` (utils.py lines 71-118):
`output_file.parent.mkdir(parents=True, exist_ok=True)` runs before the
`try` block, so a directory-creation failure propagates; afterwards the
fetch/write failures are swallowed exactly as in `download_image` (the
content-type check only logs a warning and does not change the result). -/
def download_video (env : DlEnv) : DlResult × Bool :=
  if env.mkdirRaises then (.exc, false)
  else
    let created := !env.parentExists
    match env.fetch with
    | .reqExc => (.ret none, created)
    | .otherExc => (.ret none, created)
    | .ok =>
      if env.writeRaises then (.ret none, created)
      else (.ret (some ()), created)

/-- Outcome of the RedGIFs client steps (login, `get_gif`, `download`)
inside the `try` of `download_redgifs_video`. -/
inductive RgOutcome where
  | ok
  | httpExc (status : Option Int)
  | otherExc
deriving DecidableEq

structure RgEnv where
  outcome : RgOutcome
  parentExists : Bool

/-- `download_redgifs_video` (utils.py lines 120-155): everything runs in
one `try`; HTTP errors (404, 410, others) and all other exceptions return
`None`; nothing creates the parent directory, so writing to a path with a
missing parent fails inside the `try` and also returns `None`. -/
def download_redgifs_video (env : RgEnv) : DlResult × Bool :=
  match env.outcome with
  | .httpExc _ => (.ret none, false)
  | .otherExc => (.ret none, false)
  | .ok =>
    if !env.parentExists then (.ret none, false)
    else (.ret (some ()), false)

/-! ## Well-typed post objects

`WFdata` describes post objects whose fields, where present, have the shape
the extractor dereferences them with (strings where string methods or regexes
are applied, dicts where `.get`/`[]` is applied, lists where iteration or
`[0]` happens).  Missing keys, missing nested objects, and falsy values that
the code guards with `or {}` / `if not x` are all allowed.  A null or
wrongly-typed value at an accessed position is what makes the extractor
raise (see the C1 counterexample). -/

/-- If the value is truthy it must be a string. -/
def strIfTruthyB (v : JVal) : Bool := !v.truthy || isStrB v

/-- The key, when present, satisfies `p`. -/
def wfOpt (kvs : List (String × JVal)) (k : String) (p : JVal → Bool) : Bool :=
  match objGet? kvs k with
  | none => true
  | some v => p v

/-- Hashable JSON values (usable as a `dict.get` key without `TypeError`). -/
def isHashableB : JVal → Bool
  | .arr _ => false
  | .obj _ => false
  | _ => true

def wfOembedObj (kvs : List (String × JVal)) : Bool :=
  wfOpt kvs "html" strIfTruthyB && wfOpt kvs "provider_name" strIfTruthyB &&
  wfOpt kvs "thumbnail_url" strIfTruthyB

def wfRedditVideo : JVal → Bool
  | .obj kvs => wfOpt kvs "fallback_url" isStrB
  | v => !v.truthy

/-- Shape of `media` / `secure_media` values. -/
def wfMediaVal : JVal → Bool
  | .obj kvs =>
    wfOpt kvs "oembed" (fun o =>
      match o with
      | .obj okvs => wfOembedObj okvs
      | v => !v.truthy) &&
    wfOpt kvs "reddit_video" wfRedditVideo &&
    wfOpt kvs "type" (fun _ => true)
  | v => !v.truthy

def wfSourceVal : JVal → Bool
  | .obj sk => wfOpt sk "u" isStrB && wfOpt sk "mp4" isStrB
  | _ => false

def wfMetaInfo : JVal → Bool
  | .obj kvs => wfOpt kvs "s" wfSourceVal
  | v => !v.truthy

def wfMediaMetadata : JVal → Bool
  | .null => true
  | .obj kvs => kvs.all (fun kv => wfMetaInfo kv.2)
  | _ => false

def wfGalleryItemVal : JVal → Bool
  | .obj kvs => wfOpt kvs "media_id" isHashableB
  | _ => false

def wfGalleryData : JVal → Bool
  | .obj kvs => wfOpt kvs "items" (fun v =>
      match v with
      | .arr xs => xs.all wfGalleryItemVal
      | _ => false)
  | v => !v.truthy

def wfPreviewImage : JVal → Bool
  | .obj kvs => wfOpt kvs "source" (fun s =>
      match s with
      | .obj sk => wfOpt sk "url" isStrB
      | _ => false)
  | _ => false

def wfPreview : JVal → Bool
  | .obj kvs => wfOpt kvs "images" (fun v =>
      match v with
      | .arr xs => xs.all wfPreviewImage
      | _ => false)
  | _ => false

def wfMediaEmbed : JVal → Bool
  | .obj kvs => wfOpt kvs "content" strIfTruthyB
  | v => !v.truthy

/-- Well-typed post `data` object. -/
def WFdata : JVal → Bool
  | .obj kvs =>
    wfOpt kvs "domain" strIfTruthyB &&
    wfOpt kvs "url_overridden_by_dest" isStrB &&
    wfOpt kvs "media" wfMediaVal &&
    wfOpt kvs "secure_media" wfMediaVal &&
    wfOpt kvs "media_embed" wfMediaEmbed &&
    wfOpt kvs "media_metadata" wfMediaMetadata &&
    wfOpt kvs "gallery_data" wfGalleryData &&
    wfOpt kvs "preview" wfPreview
  | _ => false

/-- Well-typed post JSON (`{"data": {...}}`; a missing `data` key defaults
to the empty dict, which is fine). -/
def WFpost : JVal → Bool
  | .obj kvs => wfOpt kvs "data" (fun d => isObjB d && WFdata d)
  | _ => false

/-! ## Spec-side description of a gallery item (for C2)

These definitions follow the spec's words for rule 2: an item is *valid*
when its media id is present in the metadata map and the required source URL
is present (for video entries: the mp4-specific field when present and
non-empty, else the generic field); `galleryVideoUrl` is the spec's
chosen-URL rule, and `mkGalleryDesc` the descriptor the spec promises:
`media_id` is the gallery item's id, `extension` derives from the chosen
URL. -/

/-- Chosen URL for a video-type gallery entry: prefer the mp4-specific
source field, fall back to the generic one; absent when neither yields a
(non-empty) URL. -/
def galleryVideoUrl (sk : List (String × JVal)) : Option String :=
  match objGet? sk "mp4" with
  | some (.str m) =>
    if !m.isEmpty then some m
    else
      match objGet? sk "u" with
      | some (.str u) => if !u.isEmpty then some u else none
      | _ => none
  | _ =>
    match objGet? sk "u" with
    | some (.str u) => if !u.isEmpty then some u else none
    | _ => none

/-- A valid gallery item: media id present in the map, map entry well-typed,
and the required source URL present. -/
def validGalleryItem (mm : List (String × JVal)) (item : JVal) : Bool :=
  match item with
  | .obj ik =>
    match objGet? ik "media_id" with
    | some (.str mid) =>
      match objGet? mm mid with
      | some (.obj mikvs) =>
        !mikvs.isEmpty &&
        (if eqStr ((objGet? mikvs "e").getD .null) "Image" then
           match (objGet? mikvs "s").getD (.obj []) with
           | .obj sk =>
             (match objGet? sk "u" with
              | some (.str _) => true
              | _ => false)
           | _ => false
         else if eqStr ((objGet? mikvs "e").getD .null) "Video" then
           match (objGet? mikvs "s").getD (.obj []) with
           | .obj sk =>
             wfOpt sk "mp4" isStrB && wfOpt sk "u" isStrB &&
             (galleryVideoUrl sk).isSome
           | _ => false
         else false)
      | _ => false
    | _ => false
  | _ => false

/-- An item whose media id is absent from the metadata map. -/
def absentGalleryItem (mm : List (String × JVal)) (item : JVal) : Bool :=
  match item with
  | .obj ik =>
    match objGet? ik "media_id" with
    | some (.str mid) => (objGet? mm mid).isNone
    | _ => false
  | _ => false

/-- The descriptor the spec promises for a valid gallery item: `media_id` is
the gallery item's id, the URL is the source URL (for videos, the preferred
one), `extension` derives from that URL. -/
def mkGalleryDesc (mm : List (String × JVal)) (meta : PostMeta) (item : JVal) :
    Desc :=
  match item with
  | .obj ik =>
    match objGet? ik "media_id" with
    | some (.str mid) =>
      match objGet? mm mid with
      | some (.obj mikvs) =>
        if eqStr ((objGet? mikvs "e").getD .null) "Image" then
          meta.desc "image"
            (.str (match (objGet? mikvs "s").getD (.obj []) with
                   | .obj sk =>
                     (match objGet? sk "u" with
                      | some (.str x) => x
                      | _ => "")
                   | _ => ""))
            (.str mid)
            (optStr (extract_media_file_extension_from_url
              (match (objGet? mikvs "s").getD (.obj []) with
               | .obj sk =>
                 (match objGet? sk "u" with
                  | some (.str x) => x
                  | _ => "")
               | _ => "")))
        else
          meta.desc "video"
            (.str (match (objGet? mikvs "s").getD (.obj []) with
                   | .obj sk => (galleryVideoUrl sk).getD ""
                   | _ => ""))
            (.str mid)
            (optStr (extract_media_file_extension_from_url
              (match (objGet? mikvs "s").getD (.obj []) with
               | .obj sk => (galleryVideoUrl sk).getD ""
               | _ => "")))
      | _ => meta.desc "image" .null .null .null
    | _ => meta.desc "image" .null .null .null
  | _ => meta.desc "image" .null .null .null

/-! ## Spec-side description of extension inference (for C5)

Python's `$` matches at the end of the string or just before a newline that
ends the string, so the regex `\.(…)(?:\?|$)` matches exactly where it would
match on the string with one trailing newline removed and `$` read as a hard
end of input; a hard-`$` match in turn can only sit at the end of a
`?`-separated segment.  The code is therefore equivalent to: strip one
trailing newline, split on `?`, return the whitelist entry that terminates
the first segment carrying one (case-insensitively). -/

/-- The hard-end reading of the terminator: a literal `?` or the very end of
the input. -/
def extCondHardAt (rest : List Char) (e : String) : Bool :=
  (rest.take e.toList.length).map Char.toLower == e.toList &&
  (match rest.drop e.toList.length with
   | [] => true
   | c :: _ => c == '?')

/-- The extension matcher with the hard-end terminator. -/
def matchExtHardAt : List Char → Option String
  | '.' :: rest =>
    extWhitelist.findSome? (fun e => if extCondHardAt rest e then some e else none)
  | _ => none

/-- Does the character list end with a newline? -/
def endsNL : List Char → Bool
  | [] => false
  | [c] => c == '\n'
  | _ :: rest => endsNL rest

/-- Remove one trailing newline, if present. -/
def stripNL : List Char → List Char
  | [] => []
  | [c] => if c == '\n' then [] else [c]
  | c :: rest => c :: stripNL rest

/-- Split a character list on `?` (Python `s.split('?')`). -/
def splitQ : List Char → List (List Char)
  | [] => [[]]
  | c :: rest =>
    if c == '?' then [] :: splitQ rest
    else
      match splitQ rest with
      | s :: ss => (c :: s) :: ss
      | [] => [[c]]

/-- The whitelist entry terminating this segment, if any. -/
def segExt (seg : List Char) : Option String :=
  extWhitelist.find? (fun e => endsWithChars ('.' :: e.toList) (lowerList seg))

/-- Extension inference as the spec describes it, repaired only as the
counterexamples force: one trailing newline is tolerated (Python's `$`), and
the suffix may terminate any `?`-separated segment (the first one wins), not
just the path. -/
def specExtension (url : String) : Option String :=
  (splitQ (stripNL url.toList)).findSome? segExt

/-! ## Concrete posts and environments used by counterexamples and
witnesses -/

/-- A post whose `url_overridden_by_dest` field is present but null. -/
def nullUrlPost : JVal :=
  .obj [("data", .obj [("url_overridden_by_dest", .null)])]

/-- The spec's end-to-end gallery example (§8). -/
def galleryExamplePost : JVal :=
  .obj [("data", .obj [
    ("is_gallery", .bool true),
    ("media_metadata", .obj [("abc", .obj [("e", .str "Image"),
      ("s", .obj [("u", .str "https://i.redd.it/abc.jpg")])])]),
    ("gallery_data", .obj [("items", .arr [.obj [("media_id", .str "abc")]])]),
    ("title", .str "T"), ("permalink", .str "/r/x/y"),
    ("subreddit", .str "x"), ("author", .str "a"), ("id", .str "1")])]

/-- A post whose override URL ends in `.mp4` and which has no
gallery/native-video/third-party/preview fields. -/
def mp4OverridePost : JVal :=
  .obj [("data", .obj [("url_overridden_by_dest",
    .str "https://v.example.com/clip.mp4")])]

/-- A post matching both the RedGIFs rule and the fallback-preview rule. -/
def redgifsPreviewPost : JVal :=
  .obj [("data", .obj [
    ("domain", .str "redgifs.com"),
    ("url_overridden_by_dest", .str "https://www.redgifs.com/watch/abc"),
    ("preview", .obj [("images", .arr [.obj [("source",
      .obj [("url", .str "https://i.redd.it/xyz.jpg")])]])])])]

/-- RedGIFs-detected post with no recoverable id anywhere. -/
def redgifsNoIdPost : JVal :=
  .obj [("data", .obj [("domain", .str "redgifs.com")])]

/-- API answers with a body whose only string contains `.mp4?` but does not
end in `.mp4`; every CDN probe would answer 200. -/
def c8ApiEnv : HttpEnv :=
  { apiGet := fun _ => some (.obj [("v", .str "https://t/a.mp4?sig=1")]),
    headStatus := fun _ => some 200 }

/-- API lookup raises; only the second CDN candidate answers 200. -/
def c8ProbeEnv : HttpEnv :=
  { apiGet := fun _ => none,
    headStatus := fun c =>
      if c == "https://thumbs2.redgifs.com/abc-mobile.mp4" then some 200
      else some 404 }

/-- A fixed example meta record. -/
def meta0 : PostMeta :=
  { title := .str "T", permalink := .str "https://www.reddit.com/r/x/y",
    subreddit := .str "x", author := .str "a", id := .str "1" }

/-- The `data` object of `redgifsPreviewPost`. -/
def rgPreviewData : JVal :=
  .obj [
    ("domain", .str "redgifs.com"),
    ("url_overridden_by_dest", .str "https://www.redgifs.com/watch/abc"),
    ("preview", .obj [("images", .arr [.obj [("source",
      .obj [("url", .str "https://i.redd.it/xyz.jpg")])]])])]

/-- The meta record `extract_reddit_media` builds for `redgifsPreviewPost`. -/
def rgPreviewMeta : PostMeta :=
  { title := .str "", permalink := .str "https://www.reddit.com",
    subreddit := .str "", author := .str "", id := .str "" }

/-- `download_image` invoked with a working fetch but a missing parent
directory. -/
def imageNoParentEnv : DlEnv :=
  { fetch := .ok, parentExists := false, mkdirRaises := false, writeRaises := false }

/-- `download_video` invoked where `mkdir` itself raises (e.g. a path
component exists as a regular file). -/
def videoMkdirFailEnv : DlEnv :=
  { fetch := .ok, parentExists := false, mkdirRaises := true, writeRaises := false }

/-- The RedGIFs rule as the spec describes it: run detection, then id
recovery; the emission is then a function of the recovered id alone
(`none` = rule does not detect or recovers no id).  This definition is the
spec-side decomposition to be compared with `extract_redgifs_media`. -/
def redgifsOutcome (data : JVal) : Except PyErr (Option String) :=
  if !data.truthy then .ok none
  else
    match data.get "domain" .null with
    | .error e => .error e
    | .ok d0 =>
      match pyLower (d0.pyOr (.str "")) with
      | .error e => .error e
      | .ok domain =>
        match data.get "url_overridden_by_dest" (.str "") with
        | .error e => .error e
        | .ok u0 =>
          match data.get "media" .null with
          | .error e => .error e
          | .ok m0 =>
            match data.get "secure_media" .null with
            | .error e => .error e
            | .ok sm0 =>
              match data.get "media_embed" .null with
              | .error e => .error e
              | .ok me0 =>
                match redgifsOembed (m0.pyOr (.obj [])) (sm0.pyOr (.obj [])) with
                | .error e => .error e
                | .ok oembed =>
                  match redgifsContentHtml (me0.pyOr (.obj [])) oembed with
                  | .error e => .error e
                  | .ok content_html =>
                    match redgifsDetected domain (u0.pyOr (.str "")) content_html
                        (sm0.pyOr (.obj [])) oembed with
                    | .error e => .error e
                    | .ok detected =>
                      if !detected then .ok none
                      else redgifsFindId (u0.pyOr (.str "")) content_html oembed

/-- The five identity fields of a descriptor agree with a meta record. -/
def MetaMatch (meta : PostMeta) (d : Desc) : Prop :=
  d.title = meta.title ∧ d.permalink = meta.permalink ∧
  d.subreddit = meta.subreddit ∧ d.author = meta.author ∧ d.id = meta.id

/-- Metadata map of the C2 example gallery: one image entry, one video entry
(with both mp4-specific and generic source URLs). -/
def c2mm : List (String × JVal) :=
  [("a", .obj [("e", .str "Image"),
     ("s", .obj [("u", .str "https://i.redd.it/a1.jpg")])]),
   ("v", .obj [("e", .str "Video"),
     ("s", .obj [("mp4", .str "https://g.redd.it/v.mp4"),
                 ("u", .str "https://g.redd.it/v.gif")])])]

/-- Item list of the C2 example: two valid ids and one (`zz`) absent from the
metadata map. -/
def c2items : List JVal :=
  [.obj [("media_id", .str "a")],
   .obj [("media_id", .str "zz")],
   .obj [("media_id", .str "v")]]

/-- The `data` object of the C2 example gallery post. -/
def c2kvs : List (String × JVal) :=
  [("is_gallery", .bool true),
   ("media_metadata", .obj c2mm),
   ("gallery_data", .obj [("items", .arr c2items)])]

/-! # Theorems -/

theorem objGet?_isSome_any (kvs : List (String × JVal)) (k : String) :
    kvs.any (fun kv => kv.1 == k) = (objGet? kvs k).isSome := by
  induction kvs with
  | nil => rfl
  | cons hd tl ih =>
    cases h : (hd.1 == k) with
    | true => simp [objGet?, List.find?_cons_of_pos _ h, h]
    | false =>
      have hne : ¬((fun kv : String × JVal => kv.1 == k) hd = true) := by simp [h]
      simpa [objGet?, List.find?_cons_of_neg _ hne, h] using ih

/-- Helper: the one-descriptor-or-nothing shape of the RedGIFs rule. -/
theorem extract_redgifs_media_shape (data : JVal) (meta : PostMeta) (l : List Desc) :
    extract_redgifs_media data meta = .ok l →
    l = [] ∨ ∃ rid, l = [redgifsDesc meta rid] := by
  unfold extract_redgifs_media
  repeat' split
  all_goals intro h
  all_goals (try cases h)
  all_goals simp

/-- C10: every descriptor emitted by the third-party (RedGIFs) rule carries a
`redgifs_id` field — not part of the spec's MediaDescriptor model — whose
value equals the descriptor's `media_id`. -/
theorem c10_redgifs_id_equals_media_id (data : JVal) (meta : PostMeta)
    (l : List Desc) (h : extract_redgifs_media data meta = .ok l) :
    ∀ d ∈ l, d.redgifs_id = some d.media_id := by
  rcases extract_redgifs_media_shape data meta l h with rfl | ⟨rid, rfl⟩
  · simp
  · intro d hd
    simp only [List.mem_singleton] at hd
    subst hd
    rfl

/-- Witness for C10 at a concrete RedGIFs post. -/
theorem c10_redgifs_id_equals_media_id_witness :
    (redgifsDesc rgPreviewMeta "abc").redgifs_id =
      some (redgifsDesc rgPreviewMeta "abc").media_id :=
  c10_redgifs_id_equals_media_id rgPreviewData rgPreviewMeta _ rfl
    (redgifsDesc rgPreviewMeta "abc") (List.mem_singleton.mpr rfl)

/-- C7: extraction rules are independent and their outputs are concatenated
in the fixed chain order; a post matching the third-party rule (one
descriptor) and the fallback-preview rule (one descriptor), and no other
rule, yields exactly those two descriptors with the third-party one first. -/
theorem c7_rule_chain_order (post data : JVal) (meta : PostMeta) (d1 d2 : Desc)
    (hdata : post.get "data" (.obj []) = .ok data)
    (hmeta : metaOf data = .ok meta)
    (h1 : extract_redgifs_media data meta = .ok [d1])
    (h2 : extract_gallery_media data meta = .ok [])
    (h3 : extract_single_image data meta = .ok [])
    (h4 : extract_single_video data meta = .ok [])
    (h5 : extract_fallback_preview data meta = .ok [d2]) :
    extract_reddit_media post = .ok [d1, d2] := by
  simp only [extract_reddit_media, hdata, hmeta, h1, h2, h3, h4, h5]
  rfl

/-- Witness for C7: a RedGIFs-detected post that also carries a preview. -/
theorem c7_rule_chain_order_witness :
    extract_reddit_media redgifsPreviewPost =
      .ok [redgifsDesc rgPreviewMeta "abc",
           rgPreviewMeta.desc "image" (.str "https://i.redd.it/xyz.jpg")
             (.str "xyz") (.str "jpg")] :=
  c7_rule_chain_order redgifsPreviewPost rgPreviewData rgPreviewMeta _ _
    rfl rfl rfl rfl rfl rfl rfl

/-- C4: the single-image rule emits one image descriptor exactly when the
override URL ends (case-sensitively) in one of jpg/jpeg/png/gif/webp, and a
post whose override URL ends in `.mp4` with no other media fields yields an
empty extraction result. -/
theorem c4_single_image_whitelist :
    (∀ (kvs : List (String × JVal)) (meta : PostMeta) (u : String),
      (objGet? kvs "url_overridden_by_dest" = some (.str u) ∨
        (objGet? kvs "url_overridden_by_dest" = none ∧ u = "")) →
      extract_single_image (.obj kvs) meta =
        .ok (if endsWithStr u ".jpg" || endsWithStr u ".jpeg" || endsWithStr u ".png" ||
                endsWithStr u ".gif" || endsWithStr u ".webp" then
              [meta.desc "image" (.str u) (optStr (extract_media_id_from_url u))
                (optStr (extract_media_file_extension_from_url u))]
             else [])) ∧
    extract_reddit_media mp4OverridePost = .ok [] := by
  constructor
  · rintro kvs meta u (h | ⟨h, rfl⟩) <;>
      · simp [extract_single_image, JVal.get, h]
        split <;> rfl
  · rfl

/-- Witness for C4 at a matching and at the `.mp4` input. -/
theorem c4_single_image_whitelist_witness :
    extract_single_image
        (.obj [("url_overridden_by_dest", .str "https://i.redd.it/abc.jpg")]) meta0 =
      .ok [meta0.desc "image" (.str "https://i.redd.it/abc.jpg")
        (.str "abc") (.str "jpg")] :=
  c4_single_image_whitelist.1 _ meta0 "https://i.redd.it/abc.jpg" (Or.inl rfl)

/-- C8 counterexample: the API body holds no string *ending* in `.mp4`, yet
resolution does not fall back to the CDN probes (which would all answer 200
and yield the first candidate): the recursive scan also accepts a string
merely *containing* `.mp4?` and returns it trimmed. -/
theorem c8_counterexample :
    get_redgifs_mp4_url c8ApiEnv "abc" = some "https://t/a.mp4" ∧
    endsWithChars ".mp4".toList (lowerList "https://t/a.mp4?sig=1".toList) = false ∧
    some "https://t/a.mp4" ≠
      (redgifsCandidates "abc").find? (fun c => c8ApiEnv.headStatus c == some 200) := by
  refine ⟨?_, rfl, by decide⟩
  simp only [get_redgifs_mp4_url, c8ApiEnv, findFirstMp4, findFirstMp4Obj, findFirstMp4Arr]
  rfl

/-- C8 (amended): for a non-empty id whose API lookup raises or whose body
yields no hit from the recursive mp4 scan (no string ending in `.mp4` nor
containing `.mp4?`), resolution returns the first CDN candidate whose HEAD
probe answers exactly 200, and `none` when no probe does. -/
theorem c8_resolution_fallback (env : HttpEnv) (red_id : String)
    (hne : red_id.isEmpty = false)
    (hfail : env.apiGet ("https://api.redgifs.com/v2/gifs/" ++ red_id) = none ∨
      ∃ j, env.apiGet ("https://api.redgifs.com/v2/gifs/" ++ red_id) = some j ∧
        findFirstMp4 j = none) :
    get_redgifs_mp4_url env red_id =
      (redgifsCandidates red_id).find? (fun c => env.headStatus c == some 200) := by
  rcases hfail with h | ⟨j, hj, hm⟩ <;> simp [get_redgifs_mp4_url, hne, *]

/-- Witness for C8: failing API lookup, second probe answers 200. -/
theorem c8_resolution_fallback_witness :
    get_redgifs_mp4_url c8ProbeEnv "abc" =
      (redgifsCandidates "abc").find? (fun c => c8ProbeEnv.headStatus c == some 200) ∧
    get_redgifs_mp4_url c8ProbeEnv "abc" =
      some "https://thumbs2.redgifs.com/abc-mobile.mp4" :=
  ⟨c8_resolution_fallback c8ProbeEnv "abc" rfl (Or.inl rfl), rfl⟩

/-- C9 counterexample: `download_image` with a working fetch but a missing
parent directory returns `None` and creates no directory (the claim promises
parent directories are created as needed for every downloader), and
`download_video` propagates an exception when directory creation itself
raises, because the `mkdir` call runs before the `try` block (the claim says
no exception of any kind propagates). -/
theorem c9_counterexample :
    download_image imageNoParentEnv = (.ret none, false) ∧
    download_video videoMkdirFailEnv = (.exc, false) := ⟨rfl, rfl⟩

/-- C9 (amended): `download_image` and `download_redgifs_video` never
propagate an exception and never create directories, returning the path
exactly on full success (for `download_image`, this requires the parent to
already exist); `download_video` creates the missing parent directories but
only its `mkdir` step can propagate — when `mkdir` does not raise, it never
propagates and returns the path exactly when fetch and write succeed. -/
theorem c9_downloaders_amended (envI envV : DlEnv) (envR : RgEnv)
    (hmk : envV.mkdirRaises = false) :
    ((download_image envI).1 ≠ .exc ∧ (download_image envI).2 = false ∧
      ((download_image envI).1 = .ret (some ()) ↔
        envI.fetch = .ok ∧ envI.parentExists = true ∧ envI.writeRaises = false)) ∧
    ((download_video envV).1 ≠ .exc ∧ (download_video envV).2 = !envV.parentExists ∧
      ((download_video envV).1 = .ret (some ()) ↔
        envV.fetch = .ok ∧ envV.writeRaises = false)) ∧
    ((download_redgifs_video envR).1 ≠ .exc ∧ (download_redgifs_video envR).2 = false ∧
      ((download_redgifs_video envR).1 = .ret (some ()) ↔
        envR.outcome = .ok ∧ envR.parentExists = true)) := by
  obtain ⟨f1, p1, m1, w1⟩ := envI
  obtain ⟨f2, p2, m2, w2⟩ := envV
  obtain ⟨o3, p3⟩ := envR
  replace hmk : m2 = false := hmk
  subst hmk
  refine ⟨?_, ?_, ?_⟩
  · cases f1 <;> cases p1 <;> cases w1 <;> simp [download_image]
  · cases f2 <;> cases p2 <;> cases w2 <;> simp [download_video]
  · cases o3 <;> cases p3 <;> simp [download_redgifs_video]

/-- Witness for C9 at concrete environments. -/
theorem c9_downloaders_amended_witness :
    ((download_image imageNoParentEnv).1 ≠ .exc ∧
      (download_image imageNoParentEnv).2 = false ∧
      ((download_image imageNoParentEnv).1 = .ret (some ()) ↔
        imageNoParentEnv.fetch = .ok ∧ imageNoParentEnv.parentExists = true ∧
          imageNoParentEnv.writeRaises = false)) ∧
    ((download_video imageNoParentEnv).1 ≠ .exc ∧
      (download_video imageNoParentEnv).2 = !imageNoParentEnv.parentExists ∧
      ((download_video imageNoParentEnv).1 = .ret (some ()) ↔
        imageNoParentEnv.fetch = .ok ∧ imageNoParentEnv.writeRaises = false)) ∧
    ((download_redgifs_video ⟨.ok, true⟩).1 ≠ .exc ∧
      (download_redgifs_video ⟨.ok, true⟩).2 = false ∧
      ((download_redgifs_video ⟨.ok, true⟩).1 = .ret (some ()) ↔
        RgOutcome.ok = .ok ∧ true = true)) :=
  c9_downloaders_amended imageNoParentEnv imageNoParentEnv ⟨.ok, true⟩ rfl

/-- C6: the third-party (RedGIFs) rule emits nothing when detection fails or
no provider id is recoverable from the URL, embed HTML, or thumbnail
patterns, and emits exactly one descriptor when an id is found — with
`type = "video"`, `url` absent (null), `provider = "redgifs"` (the host) and
`extension = "mp4"` (the provider's default container), as spelled out by
`redgifsDesc`. -/
theorem c6_redgifs_rule (data : JVal) (meta : PostMeta) :
    extract_redgifs_media data meta =
      (redgifsOutcome data).map (fun o =>
        match o with
        | none => []
        | some rid => [redgifsDesc meta rid]) := by
  unfold extract_redgifs_media redgifsOutcome
  repeat' split
  all_goals (first | rfl | simp_all [Except.map])

theorem galleryItem_meta (mm : JVal) (meta : PostMeta) (it : JVal) (d : Desc) :
    galleryItem mm meta it = .ok (some d) → MetaMatch meta d := by
  unfold galleryItem
  repeat' split
  all_goals intro h
  all_goals cases h
  all_goals exact ⟨rfl, rfl, rfl, rfl, rfl⟩

theorem galleryLoop_meta (mm : JVal) (meta : PostMeta) (items : List JVal)
    (l : List Desc) (h : galleryLoop mm meta items = .ok l) :
    ∀ d ∈ l, MetaMatch meta d := by
  induction items generalizing l with
  | nil => cases h; simp
  | cons it rest ih =>
    unfold galleryLoop at h
    cases h1 : galleryItem mm meta it with
    | error e => rw [h1] at h; cases h
    | ok d? =>
      rw [h1] at h
      cases h2 : galleryLoop mm meta rest with
      | error e => rw [h2] at h; cases h
      | ok tail =>
        rw [h2] at h
        cases d? with
        | none => cases h; exact ih _ h2
        | some d0 =>
          cases h
          intro d hd
          rcases List.mem_cons.mp hd with rfl | hd'
          · exact galleryItem_meta mm meta it d h1
          · exact ih _ h2 d hd'

theorem extract_gallery_media_meta (data : JVal) (meta : PostMeta)
    (l : List Desc) (h : extract_gallery_media data meta = .ok l) :
    ∀ d ∈ l, MetaMatch meta d := by
  unfold extract_gallery_media at h
  repeat' split at h
  any_goals exact Except.noConfusion h
  all_goals first
    | (cases h; simp)
    | exact galleryLoop_meta _ _ _ _ h

theorem extract_single_image_meta (data : JVal) (meta : PostMeta)
    (l : List Desc) (h : extract_single_image data meta = .ok l) :
    ∀ d ∈ l, MetaMatch meta d := by
  unfold extract_single_image at h
  repeat' split at h
  all_goals cases h
  all_goals simp_all [MetaMatch, PostMeta.desc]

theorem extract_single_video_meta (data : JVal) (meta : PostMeta)
    (l : List Desc) (h : extract_single_video data meta = .ok l) :
    ∀ d ∈ l, MetaMatch meta d := by
  unfold extract_single_video single_video_from at h
  repeat' split at h
  all_goals cases h
  all_goals simp_all [MetaMatch, PostMeta.desc]

theorem extract_fallback_preview_meta (data : JVal) (meta : PostMeta)
    (l : List Desc) (h : extract_fallback_preview data meta = .ok l) :
    ∀ d ∈ l, MetaMatch meta d := by
  unfold extract_fallback_preview at h
  repeat' split at h
  all_goals cases h
  all_goals simp_all [MetaMatch, PostMeta.desc]

theorem extract_redgifs_media_meta (data : JVal) (meta : PostMeta)
    (l : List Desc) (h : extract_redgifs_media data meta = .ok l) :
    ∀ d ∈ l, MetaMatch meta d := by
  rcases extract_redgifs_media_shape data meta l h with rfl | ⟨rid, rfl⟩
  · simp
  · intro d hd
    simp only [List.mem_singleton] at hd
    subst hd
    exact ⟨rfl, rfl, rfl, rfl, rfl⟩

theorem metaOf_obj (dkvs : List (String × JVal)) :
    metaOf (.obj dkvs) = .ok
      { title := (objGet? dkvs "title").getD (.str ""),
        permalink := .str ("https://www.reddit.com" ++
          pyStr ((objGet? dkvs "permalink").getD (.str ""))),
        subreddit := (objGet? dkvs "subreddit").getD (.str ""),
        author := (objGet? dkvs "author").getD (.str ""),
        id := (objGet? dkvs "id").getD (.str "") } := rfl

/-- Helper: every descriptor of a post carries the meta record built by
`extract_reddit_media`. -/
theorem extract_reddit_media_meta (post data : JVal) (meta : PostMeta) (ds : List Desc)
    (hpost : post.get "data" (.obj []) = .ok data)
    (hmeta : metaOf data = .ok meta)
    (h : extract_reddit_media post = .ok ds) :
    ∀ d ∈ ds, MetaMatch meta d := by
  unfold extract_reddit_media at h
  rw [hpost] at h
  simp only [hmeta] at h
  cases h1 : extract_redgifs_media data meta with
  | error e => simp only [h1] at h; exact Except.noConfusion h
  | ok r1 =>
    simp only [h1] at h
    cases h2 : extract_gallery_media data meta with
    | error e => simp only [h2] at h; exact Except.noConfusion h
    | ok r2 =>
      simp only [h2] at h
      cases h3 : extract_single_image data meta with
      | error e => simp only [h3] at h; exact Except.noConfusion h
      | ok r3 =>
        simp only [h3] at h
        cases h4 : extract_single_video data meta with
        | error e => simp only [h4] at h; exact Except.noConfusion h
        | ok r4 =>
          simp only [h4] at h
          cases h5 : extract_fallback_preview data meta with
          | error e => simp only [h5] at h; exact Except.noConfusion h
          | ok r5 =>
            simp only [h5] at h
            cases h
            intro d hd
            simp only [List.append_assoc, List.mem_append] at hd
            rcases hd with hd | hd | hd | hd | hd
            · exact extract_redgifs_media_meta _ _ _ h1 d hd
            · exact extract_gallery_media_meta _ _ _ h2 d hd
            · exact extract_single_image_meta _ _ _ h3 d hd
            · exact extract_single_video_meta _ _ _ h4 d hd
            · exact extract_fallback_preview_meta _ _ _ h5 d hd

/-- C3 (amended): `title`, `subreddit`, `author` and `id` are copied verbatim
from the post's data object onto every descriptor the post yields; the
`permalink` is NOT verbatim — it is the post's permalink value interpolated
into `"https://www.reddit.com{...}"`. -/
theorem c3_meta_fields (post : JVal) (dkvs : List (String × JVal)) (ds : List Desc)
    (hpost : post.get "data" (.obj []) = .ok (.obj dkvs))
    (h : extract_reddit_media post = .ok ds) :
    ∀ d ∈ ds,
      d.title = (objGet? dkvs "title").getD (.str "") ∧
      d.subreddit = (objGet? dkvs "subreddit").getD (.str "") ∧
      d.author = (objGet? dkvs "author").getD (.str "") ∧
      d.id = (objGet? dkvs "id").getD (.str "") ∧
      d.permalink = .str ("https://www.reddit.com" ++
        pyStr ((objGet? dkvs "permalink").getD (.str ""))) := by
  intro d hd
  obtain ⟨ht, hp, hs, ha, hi⟩ :=
    extract_reddit_media_meta post (.obj dkvs) _ ds hpost (metaOf_obj dkvs) h d hd
  exact ⟨ht, hs, ha, hi, hp⟩

/-- Witness for C3 at the spec's end-to-end gallery example. -/
theorem c3_meta_fields_witness :
    (meta0.desc "image" (.str "https://i.redd.it/abc.jpg")
        (.str "abc") (.str "jpg")).title = JVal.str "T" ∧
      (meta0.desc "image" (.str "https://i.redd.it/abc.jpg")
        (.str "abc") (.str "jpg")).subreddit = JVal.str "x" ∧
      (meta0.desc "image" (.str "https://i.redd.it/abc.jpg")
        (.str "abc") (.str "jpg")).author = JVal.str "a" ∧
      (meta0.desc "image" (.str "https://i.redd.it/abc.jpg")
        (.str "abc") (.str "jpg")).id = JVal.str "1" ∧
      (meta0.desc "image" (.str "https://i.redd.it/abc.jpg")
        (.str "abc") (.str "jpg")).permalink =
        JVal.str "https://www.reddit.com/r/x/y" :=
  c3_meta_fields galleryExamplePost
    [("is_gallery", .bool true),
     ("media_metadata", .obj [("abc", .obj [("e", .str "Image"),
       ("s", .obj [("u", .str "https://i.redd.it/abc.jpg")])])]),
     ("gallery_data", .obj [("items", .arr [.obj [("media_id", .str "abc")]])]),
     ("title", .str "T"), ("permalink", .str "/r/x/y"),
     ("subreddit", .str "x"), ("author", .str "a"), ("id", .str "1")] _ rfl rfl
    (meta0.desc "image" (.str "https://i.redd.it/abc.jpg")
      (.str "abc") (.str "jpg")) (List.mem_singleton.mpr rfl)

/-- C3 counterexample: the permalink is not copied verbatim — the post's
permalink `/r/x/y` becomes `https://www.reddit.com/r/x/y` on the descriptor. -/
theorem c3_permalink_counterexample :
    (extract_reddit_media galleryExamplePost).map (fun l => l.map Desc.permalink) =
      .ok [.str "https://www.reddit.com/r/x/y"] ∧
    (match galleryExamplePost.index "data" with
     | .ok d => d.index "permalink"
     | .error e => .error e) = .ok (.str "/r/x/y") ∧
    ("https://www.reddit.com/r/x/y" : String) ≠ "/r/x/y" :=
  ⟨rfl, rfl, by decide⟩

theorem endsWithChars_iff_suffix (p : List Char) :
    ∀ l : List Char, endsWithChars p l = true ↔ p <:+ l := by
  intro l
  induction l with
  | nil =>
    simp only [endsWithChars, beq_iff_eq, List.suffix_nil]
  | cons c t ih =>
    simp only [endsWithChars, Bool.or_eq_true, beq_iff_eq, ih, List.suffix_cons_iff]

theorem string_toList_inj {a b : String} (h : a.toList = b.toList) : a = b := by
  cases a
  cases b
  simp only [String.toList] at h
  exact congrArg String.mk h

theorem toLower_eq_dot {c : Char} (h : c.toLower = '.') : c = '.' := by
  unfold Char.toLower at h
  by_cases hc : c.toNat ≥ 65 ∧ c.toNat ≤ 90
  · exfalso
    rw [if_pos hc] at h
    have hvalid : Nat.isValidChar (c.toNat + 32) := Or.inl (by omega)
    rw [Char.ofNat, dif_pos hvalid] at h
    have hval : (Char.ofNatAux (c.toNat + 32) hvalid).toNat = c.toNat + 32 := rfl
    rw [h] at hval
    have hdot : ('.' : Char).toNat = 46 := rfl
    omega
  · rwa [if_neg hc] at h

theorem qmark_not_mem_ext : ∀ e ∈ extWhitelist, ('?' : Char) ∉ e.toList := by decide

theorem ext_suffix_unique :
    ∀ e' ∈ extWhitelist, ∀ e ∈ extWhitelist,
      ('.' :: e'.toList) <:+ ('.' :: e.toList) → e' = e := by decide

theorem find?_unique {α : Type} {l : List α} {p : α → Bool} {a : α}
    (ha : a ∈ l) (hp : p a = true)
    (huniq : ∀ b ∈ l, p b = true → b = a) :
    l.find? p = some a := by
  induction l with
  | nil => cases ha
  | cons hd tl ih =>
    cases hh : p hd with
    | true =>
      have : hd = a := huniq hd (List.mem_cons_self _ _) hh
      subst this
      exact List.find?_cons_of_pos _ hh
    | false =>
      have ha' : a ∈ tl := by
        rcases List.mem_cons.mp ha with rfl | h
        · rw [hp] at hh; cases hh
        · exact h
      rw [List.find?_cons_of_neg _ (by simp [hh])]
      exact ih ha' (fun b hb hpb => huniq b (List.mem_cons_of_mem _ hb) hpb)

theorem find?_congr {α : Type} {p q : α → Bool} :
    ∀ {l : List α}, (∀ a ∈ l, p a = q a) → l.find? p = l.find? q := by
  intro l
  induction l with
  | nil => intro _; rfl
  | cons hd tl ih =>
    intro h
    have hhd := h hd (List.mem_cons_self _ _)
    cases hh : q hd with
    | true =>
      rw [List.find?_cons_of_pos _ (hhd.trans hh), List.find?_cons_of_pos _ hh]
    | false =>
      rw [List.find?_cons_of_neg _ (by simp [hhd, hh]),
          List.find?_cons_of_neg _ (by simp [hh])]
      exact ih (fun a ha => h a (List.mem_cons_of_mem _ ha))

theorem findSome?_if_unique {l : List String} {q : String → Bool} {e : String}
    (he : e ∈ l) (hq : q e = true)
    (huniq : ∀ e' ∈ l, q e' = true → e' = e) :
    l.findSome? (fun x => if q x then some x else none) = some e := by
  induction l with
  | nil => cases he
  | cons hd tl ih =>
    rw [List.findSome?_cons]
    cases hh : q hd with
    | true =>
      have : hd = e := huniq hd (List.mem_cons_self _ _) hh
      subst this
      simp [hh]
    | false =>
      have he' : e ∈ tl := by
        rcases List.mem_cons.mp he with rfl | h
        · rw [hq] at hh; cases hh
        · exact h
      rw [if_neg (by simp [hh])]
      exact ih he' (fun e' h' hq' => huniq e' (List.mem_cons_of_mem _ h') hq')

theorem splitQ_head (cs : List Char) :
    ∃ ss, splitQ cs = cs.takeWhile (fun c => !(c == '?')) :: ss := by
  induction cs with
  | nil => exact ⟨[], rfl⟩
  | cons c rest ih =>
    obtain ⟨ss, hss⟩ := ih
    cases hc : (c == '?') with
    | true =>
      refine ⟨splitQ rest, ?_⟩
      have hcq : c = '?' := by simpa using hc
      subst hcq
      simp [splitQ, List.takeWhile_cons]
    | false =>
      refine ⟨ss, ?_⟩
      simp [splitQ, hc, hss, List.takeWhile_cons]

theorem takeWhile_eq_take_of {P : Char → Bool} :
    ∀ {l : List Char} {n : Nat},
      (∀ c ∈ l.take n, P c = true) →
      (∀ c, (l.drop n).head? = some c → P c = false) →
      l.takeWhile P = l.take n := by
  intro l n
  induction n generalizing l with
  | zero =>
    intro _ h2
    cases l with
    | nil => rfl
    | cons c t =>
      have := h2 c rfl
      simp [List.takeWhile_cons, this]
  | succ n ih =>
    intro h1 h2
    cases l with
    | nil => rfl
    | cons c t =>
      have hc : P c = true := h1 c (by simp)
      simp only [List.take_succ_cons, List.takeWhile_cons, hc, if_true]
      congr 1
      exact ih (fun x hx => h1 x (by simp [hx])) (fun x hx => h2 x (by simpa using hx))

theorem take_len_takeWhile (P : Char → Bool) (l : List Char) :
    l.take (l.takeWhile P).length = l.takeWhile P :=
  (List.prefix_iff_eq_take.mp (List.takeWhile_prefix P)).symm

theorem head?_dropWhile_false (P : Char → Bool) :
    ∀ l : List Char, ∀ c, (l.dropWhile P).head? = some c → P c = false := by
  intro l
  induction l with
  | nil => intro c h; cases h
  | cons hd tl ih =>
    intro c h
    cases hh : P hd with
    | true =>
      rw [List.dropWhile_cons_of_pos hh] at h
      exact ih c h
    | false =>
      rw [List.dropWhile_cons_of_neg (by simp [hh])] at h
      cases h
      exact hh

theorem head?_drop_len_takeWhile (P : Char → Bool) (l : List Char) :
    ∀ c, (l.drop (l.takeWhile P).length).head? = some c → P c = false := by
  intro c h
  have hsplit : l.take (l.takeWhile P).length ++ l.drop (l.takeWhile P).length = l :=
    List.take_append_drop _ l
  rw [take_len_takeWhile] at hsplit
  have hdrop : l.drop (l.takeWhile P).length = l.dropWhile P := by
    have h2 : l.takeWhile P ++ l.dropWhile P = l := List.takeWhile_append_dropWhile P l
    exact List.append_cancel_left (hsplit.trans h2.symm)
  rw [hdrop] at h
  exact head?_dropWhile_false P l c h

/-- The per-extension condition of `matchExtHardAt` at a position holds exactly
when the leading `?`-free run of the remaining characters lowers to the
extension. -/
theorem extCondHardAt_iff {rest : List Char} {e : String} (he : e ∈ extWhitelist) :
    extCondHardAt rest e = true ↔
      lowerList (rest.takeWhile (fun ch => !(ch == '?'))) = e.toList := by
  unfold extCondHardAt
  constructor
  · intro h
    rw [Bool.and_eq_true] at h
    obtain ⟨h1, h2⟩ := h
    rw [beq_iff_eq] at h1
    have htw : rest.takeWhile (fun ch => !(ch == '?')) = rest.take e.toList.length := by
      apply takeWhile_eq_take_of
      · intro c hc
        have : c.toLower ∈ e.toList := by
          rw [← h1]
          exact List.mem_map_of_mem _ hc
        by_cases hq : c = '?'
        · exfalso
          subst hq
          have hl : ('?' : Char).toLower = '?' := rfl
          rw [hl] at this
          exact qmark_not_mem_ext e he this
        · simp [hq]
      · intro c hc
        cases hd : rest.drop e.toList.length with
        | nil => rw [hd] at hc; cases hc
        | cons x xs =>
          rw [hd] at h2 hc
          cases hc
          have : (c == '?') = true := h2
          simp [this]
    rw [htw]
    exact h1
  · intro h
    have hlen : (rest.takeWhile (fun ch => !(ch == '?'))).length = e.toList.length := by
      have := congrArg List.length h
      simpa [lowerList] using this
    have htake : rest.take e.toList.length = rest.takeWhile (fun ch => !(ch == '?')) := by
      rw [← hlen]
      exact take_len_takeWhile _ rest
    rw [Bool.and_eq_true]
    constructor
    · rw [beq_iff_eq, htake]
      exact h
    · cases hd : rest.drop e.toList.length with
      | nil => rfl
      | cons x xs =>
        have hx : (fun ch => !(ch == '?')) x = false := by
          apply head?_drop_len_takeWhile (fun ch => !(ch == '?')) rest
          rw [hlen, hd]
          rfl
        simpa using hx

theorem matchExtHardAt_cons_ne_dot {c : Char} {rest : List Char} (h : c ≠ '.') :
    matchExtHardAt (c :: rest) = none := by
  unfold matchExtHardAt
  split
  next rest' heq =>
    exact absurd (List.cons.inj heq).1 h
  next => rfl

theorem matchExtHardAt_dot (rest : List Char) :
    matchExtHardAt ('.' :: rest) =
      extWhitelist.findSome? (fun e => if extCondHardAt rest e then some e else none) := rfl

theorem matchExtHardAt_some_iff {c : Char} {rest : List Char} {e : String} :
    matchExtHardAt (c :: rest) = some e ↔
      (c = '.' ∧ e ∈ extWhitelist ∧
        lowerList (rest.takeWhile (fun ch => !(ch == '?'))) = e.toList) := by
  constructor
  · intro h
    by_cases hc : c = '.'
    · subst hc
      rw [matchExtHardAt_dot] at h
      obtain ⟨a, ha, hfa⟩ := List.exists_of_findSome?_eq_some h
      cases hq : extCondHardAt rest a with
      | false => simp [hq] at hfa
      | true =>
        simp only [hq, if_true, Option.some.injEq] at hfa
        subst hfa
        exact ⟨rfl, ha, (extCondHardAt_iff ha).mp hq⟩
    · rw [matchExtHardAt_cons_ne_dot hc] at h; cases h
  · rintro ⟨rfl, he, hlow⟩
    rw [matchExtHardAt_dot]
    apply findSome?_if_unique he ((extCondHardAt_iff he).mpr hlow)
    intro e' he' hq'
    have h' := (extCondHardAt_iff he').mp hq'
    apply string_toList_inj
    rw [← h', ← hlow]

theorem segExt_of_full {seg : List Char} {e : String} (he : e ∈ extWhitelist)
    (h : lowerList seg = '.' :: e.toList) : segExt seg = some e := by
  unfold segExt
  apply find?_unique he
  · rw [h]
    exact (endsWithChars_iff_suffix _ _).mpr (List.suffix_refl _)
  · intro e' he' hp
    rw [h] at hp
    exact ext_suffix_unique e' he' e he ((endsWithChars_iff_suffix _ _).mp hp)

theorem segExt_cons_of_none {c : Char} {s : List Char}
    (hno : ∀ e ∈ extWhitelist, lowerList (c :: s) ≠ '.' :: e.toList) :
    segExt (c :: s) = segExt s := by
  unfold segExt
  apply find?_congr
  intro e he
  have hl : lowerList (c :: s) = c.toLower :: lowerList s := rfl
  show endsWithChars ('.' :: e.toList) (lowerList (c :: s)) =
       endsWithChars ('.' :: e.toList) (lowerList s)
  rw [hl]
  show ((('.' :: e.toList : List Char) == c.toLower :: lowerList s) ||
    endsWithChars ('.' :: e.toList) (lowerList s)) =
      endsWithChars ('.' :: e.toList) (lowerList s)
  have hfalse : (('.' :: e.toList : List Char) == c.toLower :: lowerList s) = false := by
    rw [beq_eq_false_iff_ne]
    intro heq
    exact hno e he (by rw [hl, ← heq])
  rw [hfalse]
  simp

theorem no_full_of_matchExtHardAt_none {c : Char} {rest : List Char}
    (hm : matchExtHardAt (c :: rest) = none) :
    ∀ e ∈ extWhitelist,
      lowerList (c :: rest.takeWhile (fun ch => !(ch == '?'))) ≠ '.' :: e.toList := by
  intro e he heq
  have heq' : c.toLower :: lowerList (rest.takeWhile (fun ch => !(ch == '?'))) =
      '.' :: e.toList := heq
  obtain ⟨h1, h2⟩ := List.cons.inj heq'
  have hc : c = '.' := toLower_eq_dot h1
  subst hc
  rw [matchExtHardAt_some_iff.mpr ⟨rfl, he, h2⟩] at hm
  cases hm

theorem reSearch_matchExtHard_eq_splitQ :
    ∀ cs : List Char, reSearch matchExtHardAt cs = (splitQ cs).findSome? segExt := by
  intro cs
  induction cs with
  | nil => rfl
  | cons c rest ih =>
    by_cases hc : c = '?'
    · subst hc
      have h2 : splitQ ('?' :: rest) = [] :: splitQ rest := by simp [splitQ]
      simp only [reSearch, h2, List.findSome?_cons]
      have h1 : matchExtHardAt ('?' :: rest) = none := rfl
      have h3 : segExt [] = none := rfl
      rw [h1, h3]
      exact ih
    · obtain ⟨ss, hss⟩ := splitQ_head rest
      have hsq : splitQ (c :: rest) =
          (c :: rest.takeWhile (fun ch => !(ch == '?'))) :: ss := by
        have hcb : (c == '?') = false := by simp [hc]
        simp [splitQ, hcb, hss]
      simp only [reSearch, hsq, List.findSome?_cons]
      cases hm : matchExtHardAt (c :: rest) with
      | some e =>
        obtain ⟨hcd, he, hlow⟩ := matchExtHardAt_some_iff.mp hm
        subst hcd
        have hfull : lowerList ('.' :: rest.takeWhile (fun ch => !(ch == '?'))) =
            '.' :: e.toList := by
          show ('.' : Char).toLower :: lowerList (rest.takeWhile (fun ch => !(ch == '?'))) =
            '.' :: e.toList
          rw [hlow]
          rfl
        rw [segExt_of_full he hfull]
      | none =>
        rw [segExt_cons_of_none (no_full_of_matchExtHardAt_none hm)]
        rw [ih, hss, List.findSome?_cons]

theorem nl_not_mem_ext : ∀ e ∈ extWhitelist, ('\n' : Char) ∉ e.toList := by decide

theorem findSome?_congr {α β : Type} {f g : α → Option β} :
    ∀ {l : List α}, (∀ a ∈ l, f a = g a) → l.findSome? f = l.findSome? g := by
  intro l
  induction l with
  | nil => intro _; rfl
  | cons hd tl ih =>
    intro h
    rw [List.findSome?_cons, List.findSome?_cons, h hd (List.mem_cons_self _ _)]
    cases g hd with
    | some b => rfl
    | none => exact ih (fun a ha => h a (List.mem_cons_of_mem _ ha))

theorem endsNL_tail {c : Char} {t : List Char} (h : endsNL (c :: t) = false) :
    endsNL t = false := by
  cases t with
  | nil => rfl
  | cons d r => exact h

theorem endsNL_drop : ∀ (k : Nat) (l : List Char), endsNL l = false →
    endsNL (l.drop k) = false := by
  intro k
  induction k with
  | zero => intro l h; exact h
  | succ k ih =>
    intro l h
    cases l with
    | nil => rfl
    | cons c t => exact ih t (endsNL_tail h)

theorem stripNL_of_noNL : ∀ cs : List Char, endsNL cs = false → stripNL cs = cs := by
  intro cs
  induction cs with
  | nil => intro _; rfl
  | cons c t ih =>
    intro h
    cases t with
    | nil =>
      have hc : (c == '\n') = false := h
      simp [stripNL, hc]
    | cons d r =>
      have h' : endsNL (d :: r) = false := h
      show c :: stripNL (d :: r) = c :: (d :: r)
      rw [ih h']

theorem eq_stripNL_append_of_endsNL : ∀ cs : List Char, endsNL cs = true →
    cs = stripNL cs ++ ['\n'] := by
  intro cs
  induction cs with
  | nil => intro h; cases h
  | cons c t ih =>
    intro h
    cases t with
    | nil =>
      have hc : (c == '\n') = true := h
      have hc2 : c = '\n' := eq_of_beq hc
      subst hc2
      rfl
    | cons d r =>
      have h' : endsNL (d :: r) = true := h
      show c :: (d :: r) = c :: (stripNL (d :: r) ++ ['\n'])
      exact congrArg (c :: ·) (ih h')

theorem extTermAt_append_nl : ∀ l : List Char, extTermAt (l ++ ['\n']) =
    (match l with
     | [] => true
     | c :: _ => c == '?') := by
  intro l
  cases l with
  | nil => decide
  | cons c t =>
    cases t with
    | nil => rfl
    | cons d r => rfl

theorem extTermAt_noNL : ∀ l : List Char, endsNL l = false → extTermAt l =
    (match l with
     | [] => true
     | c :: _ => c == '?') := by
  intro l hl
  cases l with
  | nil => rfl
  | cons c t =>
    cases t with
    | nil =>
      have hc : (c == '\n') = false := hl
      show (c == '?' || c == '\n') = (c == '?')
      rw [hc, Bool.or_false]
    | cons d r => rfl

theorem extCondAt_append_nl (cs : List Char) (e : String) (he : e ∈ extWhitelist) :
    extCondAt (cs ++ ['\n']) e = extCondHardAt cs e := by
  by_cases hlen : e.toList.length ≤ cs.length
  · unfold extCondAt extCondHardAt
    rw [List.take_append_of_le_length hlen, List.drop_append_of_le_length hlen]
    congr 1
    exact extTermAt_append_nl (cs.drop e.toList.length)
  · have hlt : cs.length < e.toList.length := Nat.lt_of_not_le hlen
    have h2 : ((cs.take e.toList.length).map Char.toLower == e.toList) = false := by
      rw [beq_eq_false_iff_ne]
      intro heq
      have hlen2 := congrArg List.length heq
      rw [List.length_map, List.length_take] at hlen2
      omega
    have h1 : (((cs ++ ['\n']).take e.toList.length).map Char.toLower ==
        e.toList) = false := by
      have htk : (cs ++ ['\n']).take e.toList.length = cs ++ ['\n'] := by
        apply List.take_of_length_le
        rw [List.length_append]
        have hone : (['\n'] : List Char).length = 1 := rfl
        rw [hone]
        omega
      rw [beq_eq_false_iff_ne, htk]
      intro heq
      have hmem : Char.toLower '\n' ∈ e.toList := by
        rw [← heq, List.map_append]
        exact List.mem_append_right _ (List.mem_singleton.mpr rfl)
      have hnl : Char.toLower '\n' = '\n' := by decide
      rw [hnl] at hmem
      exact nl_not_mem_ext e he hmem
    unfold extCondAt extCondHardAt
    rw [h1, h2, Bool.false_and, Bool.false_and]

theorem extCondAt_noNL (rest : List Char) (e : String)
    (h : endsNL rest = false) : extCondAt rest e = extCondHardAt rest e := by
  unfold extCondAt extCondHardAt
  congr 1
  exact extTermAt_noNL (rest.drop e.toList.length)
    (endsNL_drop e.toList.length rest h)

theorem matchExtAt_ne_dot {c : Char} {rest : List Char} (h : c ≠ '.') :
    matchExtAt (c :: rest) = none := by
  unfold matchExtAt
  split
  next rest' heq =>
    exact absurd (List.cons.inj heq).1 h
  next => rfl

theorem matchExtAt_dot_eq (rest : List Char) :
    matchExtAt ('.' :: rest) =
      extWhitelist.findSome? (fun e => if extCondAt rest e then some e else none) := rfl

theorem matchExtAt_append_nl : ∀ u : List Char,
    matchExtAt (u ++ ['\n']) = matchExtHardAt u := by
  intro u
  cases u with
  | nil => decide
  | cons c u' =>
    by_cases hc : c = '.'
    · subst hc
      show matchExtAt ('.' :: (u' ++ ['\n'])) = matchExtHardAt ('.' :: u')
      rw [matchExtAt_dot_eq, matchExtHardAt_dot]
      apply findSome?_congr
      intro e he
      rw [extCondAt_append_nl u' e he]
    · show matchExtAt (c :: (u' ++ ['\n'])) = matchExtHardAt (c :: u')
      rw [matchExtAt_ne_dot hc, matchExtHardAt_cons_ne_dot hc]

theorem matchExtAt_noNL (cs : List Char) (h : endsNL cs = false) :
    matchExtAt cs = matchExtHardAt cs := by
  cases cs with
  | nil => rfl
  | cons c rest =>
    by_cases hc : c = '.'
    · subst hc
      rw [matchExtAt_dot_eq, matchExtHardAt_dot]
      apply findSome?_congr
      intro e _
      rw [extCondAt_noNL rest e (endsNL_tail h)]
    · rw [matchExtAt_ne_dot hc, matchExtHardAt_cons_ne_dot hc]

theorem reSearch_append_nl : ∀ t : List Char,
    reSearch matchExtAt (t ++ ['\n']) = reSearch matchExtHardAt t := by
  intro t
  induction t with
  | nil => decide
  | cons c t' ih =>
    have hB := matchExtAt_append_nl (c :: t')
    rw [List.cons_append] at hB
    show (match matchExtAt (c :: (t' ++ ['\n'])) with
          | some r => some r
          | none => reSearch matchExtAt (t' ++ ['\n'])) =
        (match matchExtHardAt (c :: t') with
          | some r => some r
          | none => reSearch matchExtHardAt t')
    rw [hB]
    cases matchExtHardAt (c :: t') with
    | some r => rfl
    | none => exact ih

theorem reSearch_noNL : ∀ cs : List Char, endsNL cs = false →
    reSearch matchExtAt cs = reSearch matchExtHardAt cs := by
  intro cs
  induction cs with
  | nil => intro _; rfl
  | cons c t ih =>
    intro h
    show (match matchExtAt (c :: t) with
          | some r => some r
          | none => reSearch matchExtAt t) =
        (match matchExtHardAt (c :: t) with
          | some r => some r
          | none => reSearch matchExtHardAt t)
    rw [matchExtAt_noNL (c :: t) h]
    cases matchExtHardAt (c :: t) with
    | some r => rfl
    | none => exact ih (endsNL_tail h)

theorem reSearch_matchExt_eq_stripNL_splitQ (cs : List Char) :
    reSearch matchExtAt cs = (splitQ (stripNL cs)).findSome? segExt := by
  cases h : endsNL cs with
  | false =>
    rw [stripNL_of_noNL cs h, reSearch_noNL cs h]
    exact reSearch_matchExtHard_eq_splitQ cs
  | true =>
    conv_lhs => rw [eq_stripNL_append_of_endsNL cs h]
    rw [reSearch_append_nl]
    exact reSearch_matchExtHard_eq_splitQ (stripNL cs)

/-- C5 (amended): extension inference equals the strip-newline-then-split
description — after removing one trailing newline (Python's `$` also matches
just before it), the result is the whitelist entry (lower-cased, matched
case-insensitively) terminating the first `?`-separated segment of the URL
that carries one, and absent when no segment is so terminated.  (The claim's
restriction of the match to the *path* is what the counterexample refutes: a
suffix ending a query-string segment also matches.) -/
theorem c5_extension_inference (url : String) :
    extract_media_file_extension_from_url url = specExtension url := by
  unfold extract_media_file_extension_from_url specExtension
  exact reSearch_matchExt_eq_stripNL_splitQ url.toList

/-- C5 counterexample: for `https://e.com/file?x=a.jpg`, no whitelisted
suffix terminates the path `https://e.com/file`, yet inference returns
`jpg` (the suffix sits at the end of the query string). -/
theorem c5_counterexample :
    extract_media_file_extension_from_url "https://e.com/file?x=a.jpg" = some "jpg" ∧
    extWhitelist.all (fun e => !endsWithStr "https://e.com/file" ("." ++ e)) = true :=
  ⟨rfl, rfl⟩

theorem galleryItem_image (mm ik mikvs sk : List (String × JVal)) (meta : PostMeta)
    (mid u : String)
    (hmid : objGet? ik "media_id" = some (.str mid))
    (hmm : objGet? mm mid = some (.obj mikvs))
    (hne : mikvs.isEmpty = false)
    (he : objGet? mikvs "e" = some (.str "Image"))
    (hs : objGet? mikvs "s" = some (.obj sk))
    (hu : objGet? sk "u" = some (.str u)) :
    galleryItem (.obj mm) meta (.obj ik) =
      .ok (some (meta.desc "image" (.str u) (.str mid)
        (optStr (extract_media_file_extension_from_url u)))) := by
  have hany : (sk.any (fun kv => kv.1 == "u")) = true := by
    rw [objGet?_isSome_any, hu]
    rfl
  simp [galleryItem, JVal.get, hmid, hmm, he, hs, hu, pyDictGetKey, JVal.index,
    pyIn, extFromJ, asStr, optStr, JVal.truthy, eqStr, isNullB, hne, hany,
    PostMeta.desc]

theorem galleryItem_video (mm ik mikvs sk : List (String × JVal)) (meta : PostMeta)
    (mid u : String)
    (hmid : objGet? ik "media_id" = some (.str mid))
    (hmm : objGet? mm mid = some (.obj mikvs))
    (hne : mikvs.isEmpty = false)
    (he : objGet? mikvs "e" = some (.str "Video"))
    (hs : objGet? mikvs "s" = some (.obj sk))
    (hmp4 : wfOpt sk "mp4" isStrB = true)
    (huwf : wfOpt sk "u" isStrB = true)
    (hgv : galleryVideoUrl sk = some u) :
    galleryItem (.obj mm) meta (.obj ik) =
      .ok (some (meta.desc "video" (.str u) (.str mid)
        (optStr (extract_media_file_extension_from_url u)))) := by
  unfold wfOpt at hmp4 huwf
  unfold galleryVideoUrl at hgv
  cases hm : objGet? sk "mp4" with
  | none =>
    simp only [hm] at hmp4 hgv
    cases hus : objGet? sk "u" with
    | none => simp only [hus] at hgv; cases hgv
    | some uv =>
      simp only [hus] at huwf hgv
      obtain ⟨us, rfl⟩ : ∃ s, uv = .str s := by
        cases uv <;> simp_all [isStrB]
      cases h0 : us.isEmpty with
      | true => simp [h0] at hgv
      | false =>
        simp [h0] at hgv
        subst hgv
        simp [galleryItem, JVal.get, hmid, hmm, he, hs, hm, hus, pyDictGetKey,
          pyIn, extFromJ, asStr, optStr, JVal.truthy, eqStr, isNullB, hne, h0,
          PostMeta.desc]
  | some mv =>
    simp only [hm] at hmp4 hgv
    obtain ⟨m, rfl⟩ : ∃ s, mv = .str s := by
      cases mv <;> simp_all [isStrB]
    cases h0 : m.isEmpty with
    | false =>
      simp [h0] at hgv
      subst hgv
      simp [galleryItem, JVal.get, hmid, hmm, he, hs, hm, pyDictGetKey,
        pyIn, extFromJ, asStr, optStr, JVal.truthy, eqStr, isNullB, hne, h0,
        PostMeta.desc]
    | true =>
      simp only [h0] at hgv
      cases hus : objGet? sk "u" with
      | none => simp [hus] at hgv
      | some uv =>
        simp only [hus] at huwf hgv
        obtain ⟨us, rfl⟩ : ∃ s, uv = .str s := by
          cases uv <;> simp_all [isStrB]
        cases h1 : us.isEmpty with
        | true => simp [h1] at hgv
        | false =>
          simp [h1] at hgv
          subst hgv
          simp [galleryItem, JVal.get, hmid, hmm, he, hs, hm, hus, pyDictGetKey,
            pyIn, extFromJ, asStr, optStr, JVal.truthy, eqStr, isNullB, hne, h0, h1,
            PostMeta.desc]

theorem galleryItem_absent_ok (mm : List (String × JVal)) (meta : PostMeta) (it : JVal)
    (ha : absentGalleryItem mm it = true) :
    galleryItem (.obj mm) meta it = .ok none := by
  unfold absentGalleryItem at ha
  cases it with
  | obj ik =>
    cases hmid : objGet? ik "media_id" with
    | none => simp only [hmid] at ha; cases ha
    | some mv =>
      simp only [hmid] at ha
      cases mv with
      | str mid =>
        cases hmm : objGet? mm mid with
        | some v => simp only [hmm] at ha; cases ha
        | none =>
          simp [galleryItem, JVal.get, hmid, hmm, pyDictGetKey, isNullB, JVal.truthy]
      | null => cases ha
      | bool b => cases ha
      | num n => cases ha
      | arr xs => cases ha
      | obj kvs => cases ha
  | null => cases ha
  | bool b => cases ha
  | num n => cases ha
  | str s => cases ha
  | arr xs => cases ha

theorem eqStr_true_iff {v : JVal} {k : String} : eqStr v k = true ↔ v = .str k := by
  cases v <;> simp [eqStr]

theorem galleryItem_valid (mm : List (String × JVal)) (meta : PostMeta) (it : JVal)
    (hv : validGalleryItem mm it = true) :
    galleryItem (.obj mm) meta it = .ok (some (mkGalleryDesc mm meta it)) := by
  cases it with
  | null => cases hv
  | bool b => cases hv
  | num n => cases hv
  | str s => cases hv
  | arr xs => cases hv
  | obj ik =>
    unfold validGalleryItem at hv
    cases hmid : objGet? ik "media_id" with
    | none => simp only [hmid] at hv; cases hv
    | some mv =>
      simp only [hmid] at hv
      cases mv with
      | null => cases hv
      | bool b => cases hv
      | num n => cases hv
      | arr xs => cases hv
      | obj kvs => cases hv
      | str mid =>
        cases hmm : objGet? mm mid with
        | none => simp only [hmm] at hv; cases hv
        | some miv =>
          simp only [hmm] at hv
          cases miv with
          | null => cases hv
          | bool b => cases hv
          | num n => cases hv
          | str s => cases hv
          | arr xs => cases hv
          | obj mikvs =>
            rw [Bool.and_eq_true] at hv
            obtain ⟨hne', hv⟩ := hv
            have hne : mikvs.isEmpty = false := by simpa using hne'
            cases hI : eqStr ((objGet? mikvs "e").getD .null) "Image" with
            | true =>
              rw [if_pos hI] at hv
              have he : objGet? mikvs "e" = some (.str "Image") := by
                cases hev : objGet? mikvs "e" with
                | none => rw [hev] at hI; cases hI
                | some ev =>
                  rw [hev] at hI
                  simp only [Option.getD_some] at hI
                  rw [eqStr_true_iff.mp hI]
              cases hs : objGet? mikvs "s" with
              | none => simp only [hs, Option.getD_none] at hv; cases hv
              | some sv =>
                simp only [hs, Option.getD_some] at hv
                cases sv with
                | null => cases hv
                | bool b => cases hv
                | num n => cases hv
                | str s => cases hv
                | arr xs => cases hv
                | obj sk =>
                  cases hu : objGet? sk "u" with
                  | none => simp only [hu] at hv; cases hv
                  | some uv =>
                    simp only [hu] at hv
                    cases uv with
                    | null => cases hv
                    | bool b => cases hv
                    | num n => cases hv
                    | arr xs => cases hv
                    | obj kvs => cases hv
                    | str ustr =>
                      have hmk : mkGalleryDesc mm meta (.obj ik) =
                          meta.desc "image" (.str ustr) (.str mid)
                            (optStr (extract_media_file_extension_from_url ustr)) := by
                        simp [mkGalleryDesc, hmid, hmm, he, hs, hu, eqStr]
                      rw [hmk]
                      exact galleryItem_image mm ik mikvs sk meta mid ustr
                        hmid hmm hne he hs hu
            | false =>
              rw [if_neg (by simp [hI])] at hv
              cases hV : eqStr ((objGet? mikvs "e").getD .null) "Video" with
              | false => rw [if_neg (by simp [hV])] at hv; cases hv
              | true =>
                rw [if_pos hV] at hv
                have he : objGet? mikvs "e" = some (.str "Video") := by
                  cases hev : objGet? mikvs "e" with
                  | none => rw [hev] at hV; cases hV
                  | some ev =>
                    rw [hev] at hV
                    simp only [Option.getD_some] at hV
                    rw [eqStr_true_iff.mp hV]
                cases hs : objGet? mikvs "s" with
                | none => simp only [hs, Option.getD_none] at hv; cases hv
                | some sv =>
                  simp only [hs, Option.getD_some] at hv
                  cases sv with
                  | null => cases hv
                  | bool b => cases hv
                  | num n => cases hv
                  | str s => cases hv
                  | arr xs => cases hv
                  | obj sk =>
                    rw [Bool.and_eq_true, Bool.and_eq_true] at hv
                    obtain ⟨⟨hmp4, huwf⟩, hsome⟩ := hv
                    obtain ⟨u, hgv⟩ := Option.isSome_iff_exists.mp hsome
                    have hmk : mkGalleryDesc mm meta (.obj ik) =
                        meta.desc "video" (.str u) (.str mid)
                          (optStr (extract_media_file_extension_from_url u)) := by
                      simp [mkGalleryDesc, hmid, hmm, he, hs, hgv, eqStr]
                    rw [hmk]
                    exact galleryItem_video mm ik mikvs sk meta mid u
                      hmid hmm hne he hs hmp4 huwf hgv

theorem absent_not_valid (mm : List (String × JVal)) (it : JVal)
    (ha : absentGalleryItem mm it = true) : validGalleryItem mm it = false := by
  unfold absentGalleryItem at ha
  unfold validGalleryItem
  cases it with
  | null => cases ha
  | bool b => cases ha
  | num n => cases ha
  | str s => cases ha
  | arr xs => cases ha
  | obj ik =>
    cases hmid : objGet? ik "media_id" with
    | none => simp [hmid]
    | some mv =>
      simp only [hmid] at ha ⊢
      cases mv with
      | null => cases ha
      | bool b => cases ha
      | num n => cases ha
      | arr xs => cases ha
      | obj kvs => cases ha
      | str mid =>
        cases hmm : objGet? mm mid with
        | none => simp [hmm]
        | some v => simp [hmm] at ha

theorem galleryLoop_spec (mm : List (String × JVal)) (meta : PostMeta) :
    ∀ items : List JVal,
      (∀ it ∈ items, validGalleryItem mm it = true ∨ absentGalleryItem mm it = true) →
      galleryLoop (.obj mm) meta items =
        .ok ((items.filter (fun it => validGalleryItem mm it)).map
          (mkGalleryDesc mm meta)) := by
  intro items h
  induction items with
  | nil => rfl
  | cons it rest ih =>
    have hit := h it (List.mem_cons_self _ _)
    have hrest := ih (fun x hx => h x (List.mem_cons_of_mem _ hx))
    unfold galleryLoop
    rcases hit with hval | habs
    · rw [galleryItem_valid mm meta it hval, hrest]
      simp [List.filter_cons, hval]
    · rw [galleryItem_absent_ok mm meta it habs, hrest]
      simp [List.filter_cons, absent_not_valid mm it habs]

/-- C2: for a gallery-flagged post with a media-metadata map whose item list
contains only valid items (id present in the map, required source URL
present) and items whose id is absent from the map, extraction returns
exactly the valid items' descriptors, in item-list order (`filter` + `map`
preserves order and drops exactly the absent ones); by `mkGalleryDesc`, each
descriptor's `media_id` is the gallery item's id, and a video entry's URL is
the mp4-specific source field when present (and non-empty), else the generic
source field. -/
theorem c2_gallery_extraction (kvs gkvs mm : List (String × JVal))
    (items : List JVal) (meta : PostMeta) (g : JVal)
    (hg : objGet? kvs "is_gallery" = some g) (hgt : g.truthy = true)
    (hmm : objGet? kvs "media_metadata" = some (.obj mm))
    (hgd : objGet? kvs "gallery_data" = some (.obj gkvs))
    (hitems : objGet? gkvs "items" = some (.arr items))
    (hdich : ∀ it ∈ items,
      validGalleryItem mm it = true ∨ absentGalleryItem mm it = true) :
    extract_gallery_media (.obj kvs) meta =
      .ok ((items.filter (fun it => validGalleryItem mm it)).map
        (mkGalleryDesc mm meta)) := by
  have hany : (kvs.any (fun kv => kv.1 == "media_metadata")) = true := by
    rw [objGet?_isSome_any, hmm]
    rfl
  have hgne : gkvs.isEmpty = false := by
    cases gkvs with
    | nil => simp [objGet?] at hitems
    | cons a l => rfl
  have htgd : (JVal.obj gkvs).truthy = true := by simp [JVal.truthy, hgne]
  have hloop := galleryLoop_spec mm meta items hdich
  simp [extract_gallery_media, JVal.get, hg, hgt, pyIn, hany, JVal.index, hmm,
    hgd, JVal.pyOr, htgd, hitems, pyIter, hloop]

/-- Witness for C2: two valid items (an image, and a video preferring the
mp4 source) and one item absent from the map yield exactly two descriptors
in item order. -/
theorem c2_gallery_extraction_witness :
    extract_gallery_media (.obj c2kvs) meta0 =
      .ok [meta0.desc "image" (.str "https://i.redd.it/a1.jpg") (.str "a")
             (.str "jpg"),
           meta0.desc "video" (.str "https://g.redd.it/v.mp4") (.str "v")
             (.str "mp4")] :=
  c2_gallery_extraction c2kvs [("items", .arr c2items)] c2mm c2items meta0
    (.bool true) rfl rfl rfl rfl rfl (by decide)

theorem strIfTruthy_cases {v : JVal} (h : strIfTruthyB v = true) :
    v.truthy = false ∨ ∃ s, v = .str s := by
  cases v with
  | str s => exact Or.inr ⟨s, rfl⟩
  | null => exact Or.inl rfl
  | bool b => exact Or.inl (by simpa [strIfTruthyB, JVal.truthy, isStrB] using h)
  | num n => exact Or.inl (by simpa [strIfTruthyB, JVal.truthy, isStrB] using h)
  | arr xs => exact Or.inl (by simpa [strIfTruthyB, JVal.truthy, isStrB] using h)
  | obj kvs => exact Or.inl (by simpa [strIfTruthyB, JVal.truthy, isStrB] using h)

theorem getD_str_of_wf {kvs : List (String × JVal)} {k : String}
    (h : wfOpt kvs k isStrB = true) :
    ∃ s, (objGet? kvs k).getD (.str "") = .str s := by
  unfold wfOpt at h
  cases hk : objGet? kvs k with
  | none => exact ⟨"", rfl⟩
  | some v =>
    rw [hk] at h
    cases v with
    | str s => exact ⟨s, rfl⟩
    | null => cases h
    | bool b => cases h
    | num n => cases h
    | arr xs => cases h
    | obj o => cases h

theorem extract_single_image_ok (kvs : List (String × JVal)) (meta : PostMeta)
    (h : wfOpt kvs "url_overridden_by_dest" isStrB = true) :
    ∃ l, extract_single_image (.obj kvs) meta = .ok l := by
  obtain ⟨s, hs⟩ := getD_str_of_wf h
  unfold extract_single_image
  simp only [JVal.get, hs]
  split <;> exact ⟨_, rfl⟩

theorem wfOpt_getD_null {kvs : List (String × JVal)} {k : String} {p : JVal → Bool}
    (hnull : p JVal.null = true) (h : wfOpt kvs k p = true) :
    p ((objGet? kvs k).getD .null) = true := by
  unfold wfOpt at h
  cases hk : objGet? kvs k with
  | none => simpa using hnull
  | some v => rw [hk] at h; simpa using h

theorem single_video_from_ok (media : JVal) (meta : PostMeta)
    (hwf : wfMediaVal media = true) :
    ∃ l, single_video_from media meta = .ok l := by
  unfold single_video_from
  cases ht : media.truthy with
  | false => simp [ht]
  | true =>
    cases media with
    | obj mk =>
      simp only [ht, Bool.not_true, Bool.false_eq_true, if_false]
      unfold wfMediaVal at hwf
      rw [Bool.and_eq_true, Bool.and_eq_true] at hwf
      obtain ⟨⟨_, hrv⟩, _⟩ := hwf
      have hrvwf : wfRedditVideo ((objGet? mk "reddit_video").getD .null) = true :=
        wfOpt_getD_null rfl hrv
      simp only [JVal.get]
      cases hrvt : ((objGet? mk "reddit_video").getD .null).truthy with
      | false => simp [hrvt]
      | true =>
        cases hrvv : (objGet? mk "reddit_video").getD .null with
        | obj rvk =>
          rw [hrvv] at hrvwf hrvt
          unfold wfRedditVideo at hrvwf
          simp only [hrvt, if_true, pyIn]
          cases hany : rvk.any (fun kv => kv.1 == "fallback_url") with
          | false => simp [hany]
          | true =>
            rw [objGet?_isSome_any] at hany
            obtain ⟨fv, hfv⟩ := Option.isSome_iff_exists.mp hany
            have hstr : isStrB fv = true := by
              have h2 : wfOpt rvk "fallback_url" isStrB = true := hrvwf
              unfold wfOpt at h2
              rw [hfv] at h2
              exact h2
            obtain ⟨fs, rfl⟩ : ∃ s, fv = .str s := by
              cases fv <;> simp_all [isStrB]
            simp [JVal.index, hfv, midFromJ, extFromJ, asStr]
        | null => rw [hrvv] at hrvt; cases hrvt
        | bool b =>
          rw [hrvv] at hrvwf hrvt
          simp [JVal.truthy] at hrvt
          simp [wfRedditVideo, JVal.truthy, hrvt] at hrvwf
        | num n =>
          rw [hrvv] at hrvwf hrvt
          simp [JVal.truthy] at hrvt
          simp [wfRedditVideo, JVal.truthy, hrvt] at hrvwf
        | str s =>
          rw [hrvv] at hrvwf hrvt
          simp [JVal.truthy] at hrvt
          simp [wfRedditVideo, JVal.truthy, hrvt] at hrvwf
        | arr xs =>
          rw [hrvv] at hrvwf hrvt
          simp [JVal.truthy] at hrvt
          simp [wfRedditVideo, JVal.truthy, hrvt] at hrvwf
    | null => cases ht
    | bool b => simp_all [wfMediaVal, JVal.truthy]
    | num n => simp_all [wfMediaVal, JVal.truthy]
    | str s => simp_all [wfMediaVal, JVal.truthy]
    | arr xs => simp_all [wfMediaVal, JVal.truthy]

theorem extract_single_video_ok (kvs : List (String × JVal)) (meta : PostMeta)
    (h3 : wfOpt kvs "media" wfMediaVal = true)
    (h4 : wfOpt kvs "secure_media" wfMediaVal = true) :
    ∃ l, extract_single_video (.obj kvs) meta = .ok l := by
  have hm1 : wfMediaVal ((objGet? kvs "media").getD .null) = true :=
    wfOpt_getD_null rfl h3
  have hm2 : wfMediaVal ((objGet? kvs "secure_media").getD .null) = true :=
    wfOpt_getD_null rfl h4
  unfold extract_single_video
  simp only [JVal.get]
  cases hm1t : ((objGet? kvs "media").getD .null).truthy with
  | true =>
    simp only [hm1t, if_true]
    exact single_video_from_ok _ meta hm1
  | false =>
    simp only [hm1t, Bool.false_eq_true, if_false]
    exact single_video_from_ok _ meta hm2

theorem objGet?_nil (k : String) : objGet? [] k = none := rfl

theorem extract_fallback_preview_ok (kvs : List (String × JVal)) (meta : PostMeta)
    (h : wfOpt kvs "preview" wfPreview = true) :
    ∃ l, extract_fallback_preview (.obj kvs) meta = .ok l := by
  unfold extract_fallback_preview
  unfold wfOpt at h
  cases hp : objGet? kvs "preview" with
  | none => simp [hp, JVal.get, objGet?_nil, JVal.truthy]
  | some pv =>
    rw [hp] at h
    cases pv with
    | null => cases h
    | bool b => cases h
    | num n => cases h
    | str s => cases h
    | arr xs => cases h
    | obj pk =>
      have him : wfOpt pk "images" (fun v =>
          match v with
          | .arr xs => xs.all wfPreviewImage
          | _ => false) = true := h
      unfold wfOpt at him
      cases hi : objGet? pk "images" with
      | none => simp [hp, hi, JVal.get, JVal.truthy]
      | some iv =>
        rw [hi] at him
        cases iv with
        | null => cases him
        | bool b => cases him
        | num n => cases him
        | str s => cases him
        | obj o => cases him
        | arr xs =>
          cases xs with
          | nil => simp [hp, hi, JVal.get, JVal.truthy]
          | cons x rest =>
            have hx : wfPreviewImage x = true := by
              have hall : (x :: rest).all wfPreviewImage = true := him
              simp only [List.all_cons, Bool.and_eq_true] at hall
              exact hall.1
            cases x with
            | null => cases hx
            | bool b => cases hx
            | num n => cases hx
            | str s => cases hx
            | arr ys => cases hx
            | obj xk =>
              have hsrc : wfOpt xk "source" (fun s =>
                  match s with
                  | .obj sk => wfOpt sk "url" isStrB
                  | _ => false) = true := hx
              unfold wfOpt at hsrc
              cases hsv : objGet? xk "source" with
              | none =>
                simp [hp, hi, hsv, JVal.get, JVal.truthy, pyIndex0, pyIn, objGet?_nil]
              | some sv =>
                rw [hsv] at hsrc
                cases sv with
                | null => cases hsrc
                | bool b => cases hsrc
                | num n => cases hsrc
                | str s => cases hsrc
                | arr ys => cases hsrc
                | obj sk =>
                  have hu : wfOpt sk "url" isStrB = true := hsrc
                  unfold wfOpt at hu
                  cases huv : objGet? sk "url" with
                  | none =>
                    have hany : (sk.any (fun kv => kv.1 == "url")) = false := by
                      rw [objGet?_isSome_any, huv]
                      rfl
                    simp [hp, hi, hsv, hany, JVal.get, JVal.truthy, pyIndex0, pyIn]
                  | some uv =>
                    rw [huv] at hu
                    obtain ⟨us, rfl⟩ : ∃ s, uv = .str s := by
                      cases uv <;> simp_all [isStrB]
                    have hany : (sk.any (fun kv => kv.1 == "url")) = true := by
                      rw [objGet?_isSome_any, huv]
                      rfl
                    simp [hp, hi, hsv, huv, hany, JVal.get, JVal.truthy, pyIndex0,
                      pyIn, JVal.index, midFromJ, extFromJ, asStr]

theorem objGet?_all {kvs : List (String × JVal)} {p : JVal → Bool} {k : String}
    {v : JVal} (hall : kvs.all (fun kv => p kv.2) = true)
    (h : objGet? kvs k = some v) : p v = true := by
  induction kvs with
  | nil => cases h
  | cons hd tl ih =>
    simp only [List.all_cons, Bool.and_eq_true] at hall
    unfold objGet? at h
    cases hk : (hd.1 == k) with
    | true =>
      rw [List.find?_cons_of_pos (p := fun kv : String × JVal => kv.1 == k) _ hk] at h
      cases h
      exact hall.1
    | false =>
      rw [List.find?_cons_of_neg _ (by simp [hk])] at h
      exact ih hall.2 h

theorem galleryItem_wf_ok (mmv : JVal) (meta : PostMeta) (it : JVal)
    (hmm : wfMediaMetadata mmv = true) (hit : wfGalleryItemVal it = true) :
    ∃ o, galleryItem mmv meta it = .ok o := by
  cases it with
  | null => cases hit
  | bool b => cases hit
  | num n => cases hit
  | str s => cases hit
  | arr xs => cases hit
  | obj ik =>
    have hhash : isHashableB ((objGet? ik "media_id").getD .null) = true := by
      have h2 : wfOpt ik "media_id" isHashableB = true := hit
      exact wfOpt_getD_null rfl h2
    unfold galleryItem
    simp only [JVal.get]
    cases hmid : (objGet? ik "media_id").getD .null with
    | arr xs => rw [hmid] at hhash; cases hhash
    | obj o => rw [hmid] at hhash; cases hhash
    | null => simp [isNullB]
    | bool b =>
      cases mmv with
      | null => simp [isNullB]
      | obj mk => simp [isNullB, pyDictGetKey, JVal.truthy]
      | bool c => cases hmm
      | num n => cases hmm
      | str s => cases hmm
      | arr xs => cases hmm
    | num n =>
      cases mmv with
      | null => simp [isNullB]
      | obj mk => simp [isNullB, pyDictGetKey, JVal.truthy]
      | bool c => cases hmm
      | num m => cases hmm
      | str s => cases hmm
      | arr xs => cases hmm
    | str mid =>
      cases mmv with
      | bool c => cases hmm
      | num m => cases hmm
      | str s => cases hmm
      | arr xs => cases hmm
      | null => simp [isNullB]
      | obj mk =>
        simp only [isNullB, Bool.or_self, Bool.false_eq_true, if_false,
          pyDictGetKey, Bool.or_false]
        cases hlk : objGet? mk mid with
        | none => simp [hlk, JVal.truthy]
        | some mi =>
          have hmi : wfMetaInfo mi = true := objGet?_all hmm hlk
          cases hmit : mi.truthy with
          | false => simp [hlk, hmit]
          | true =>
            cases mi with
            | null => cases hmit
            | bool c => simp_all [wfMetaInfo, JVal.truthy]
            | num m => simp_all [wfMetaInfo, JVal.truthy]
            | str s => simp_all [wfMetaInfo, JVal.truthy]
            | arr xs => simp_all [wfMetaInfo, JVal.truthy]
            | obj mikvs =>
              have hsv : wfSourceVal ((objGet? mikvs "s").getD (.obj [])) = true := by
                have h2 : wfOpt mikvs "s" wfSourceVal = true := hmi
                unfold wfOpt at h2
                cases hsk : objGet? mikvs "s" with
                | none => rfl
                | some sv => rw [hsk] at h2; simpa using h2
              obtain ⟨sk, hskv, hu, hmp4⟩ :
                  ∃ sk, (objGet? mikvs "s").getD (.obj []) = .obj sk ∧
                    wfOpt sk "u" isStrB = true ∧ wfOpt sk "mp4" isStrB = true := by
                cases hsv2 : (objGet? mikvs "s").getD (.obj []) with
                | obj sk =>
                  rw [hsv2] at hsv
                  have h3 : (wfOpt sk "u" isStrB && wfOpt sk "mp4" isStrB) = true := hsv
                  rw [Bool.and_eq_true] at h3
                  exact ⟨sk, rfl, h3.1, h3.2⟩
                | null => rw [hsv2] at hsv; cases hsv
                | bool c => rw [hsv2] at hsv; cases hsv
                | num m => rw [hsv2] at hsv; cases hsv
                | str s => rw [hsv2] at hsv; cases hsv
                | arr xs => rw [hsv2] at hsv; cases hsv
              simp only [hlk, Option.getD_some, hmit, JVal.get, hskv, if_true,
                Bool.not_true, Bool.false_eq_true, if_false]
              cases hI : eqStr ((objGet? mikvs "e").getD .null) "Image" with
              | true =>
                rw [if_pos (rfl : (true : Bool) = true)]
                simp only [pyIn]
                cases hasu : sk.any (fun kv => kv.1 == "u") with
                | false => simp [hasu]
                | true =>
                  rw [objGet?_isSome_any] at hasu
                  obtain ⟨uv, huv⟩ := Option.isSome_iff_exists.mp hasu
                  have hustr : isStrB uv = true := by
                    unfold wfOpt at hu
                    rw [huv] at hu
                    simpa using hu
                  obtain ⟨us, rfl⟩ : ∃ s, uv = .str s := by
                    cases uv <;> simp_all [isStrB]
                  simp [huv, JVal.index, extFromJ, asStr]
              | false =>
                rw [if_neg (by simp : ¬((false : Bool) = true))]
                cases hV : eqStr ((objGet? mikvs "e").getD .null) "Video" with
                | false =>
                  rw [if_neg (by simp : ¬((false : Bool) = true))]
                  exact ⟨_, rfl⟩
                | true =>
                  rw [if_pos (rfl : (true : Bool) = true)]
                  have hmp4v : ((objGet? sk "mp4").getD .null).truthy = false ∨
                      ∃ s, (objGet? sk "mp4").getD .null = .str s := by
                    unfold wfOpt at hmp4
                    cases hm4 : objGet? sk "mp4" with
                    | none => exact Or.inl rfl
                    | some v =>
                      rw [hm4] at hmp4
                      cases v <;> simp_all [isStrB]
                  have huv2 : ((objGet? sk "u").getD .null).truthy = false ∨
                      ∃ s, (objGet? sk "u").getD .null = .str s := by
                    unfold wfOpt at hu
                    cases hm4 : objGet? sk "u" with
                    | none => exact Or.inl rfl
                    | some v =>
                      rw [hm4] at hu
                      cases v <;> simp_all [isStrB]
                  cases hmt : ((objGet? sk "mp4").getD .null).truthy with
                  | true =>
                    obtain ⟨ms, hms⟩ : ∃ s, (objGet? sk "mp4").getD .null = .str s := by
                      rcases hmp4v with hf | h
                      · rw [hf] at hmt; cases hmt
                      · exact h
                    simp [hmt, hms, extFromJ, asStr, JVal.truthy]
                    split <;> exact ⟨_, rfl⟩
                  | false =>
                    simp only [hmt, Bool.false_eq_true, if_false, JVal.get]
                    cases hut : ((objGet? sk "u").getD .null).truthy with
                    | false => simp [hut]
                    | true =>
                      obtain ⟨us, hus⟩ : ∃ s, (objGet? sk "u").getD .null = .str s := by
                        rcases huv2 with hf | h
                        · rw [hf] at hut; cases hut
                        · exact h
                      simp [hut, hus, extFromJ, asStr]

theorem galleryLoop_wf_ok (mmv : JVal) (meta : PostMeta)
    (hmm : wfMediaMetadata mmv = true) :
    ∀ items : List JVal, items.all wfGalleryItemVal = true →
      ∃ l, galleryLoop mmv meta items = .ok l := by
  intro items hall
  induction items with
  | nil => exact ⟨[], rfl⟩
  | cons it rest ih =>
    simp only [List.all_cons, Bool.and_eq_true] at hall
    obtain ⟨d?, hd⟩ := galleryItem_wf_ok mmv meta it hmm hall.1
    obtain ⟨tail, htail⟩ := ih hall.2
    cases d? with
    | some d =>
      refine ⟨d :: tail, ?_⟩
      unfold galleryLoop
      rw [hd, htail]
    | none =>
      refine ⟨tail, ?_⟩
      unfold galleryLoop
      rw [hd, htail]

theorem extract_gallery_media_ok (kvs : List (String × JVal)) (meta : PostMeta)
    (h6 : wfOpt kvs "media_metadata" wfMediaMetadata = true)
    (h7 : wfOpt kvs "gallery_data" wfGalleryData = true) :
    ∃ l, extract_gallery_media (.obj kvs) meta = .ok l := by
  unfold extract_gallery_media
  simp only [JVal.get]
  cases hgt : ((objGet? kvs "is_gallery").getD .null).truthy with
  | false => simp [hgt]
  | true =>
    simp only [hgt, if_true, pyIn]
    cases hany : kvs.any (fun kv => kv.1 == "media_metadata") with
    | false => simp [hany]
    | true =>
      rw [objGet?_isSome_any] at hany
      obtain ⟨mmv, hmmv⟩ := Option.isSome_iff_exists.mp hany
      have hwfmm : wfMediaMetadata mmv = true := by
        unfold wfOpt at h6
        rw [hmmv] at h6
        simpa using h6
      have hgd : ∃ gk, ((objGet? kvs "gallery_data").getD (.obj [])).pyOr (.obj []) =
          .obj gk ∧ wfOpt gk "items" (fun v =>
            match v with
            | .arr xs => xs.all wfGalleryItemVal
            | _ => false) = true := by
        unfold wfOpt at h7
        cases hg : objGet? kvs "gallery_data" with
        | none => exact ⟨[], rfl, rfl⟩
        | some gv =>
          rw [hg] at h7
          cases gv with
          | obj gk =>
            cases hgkt : (JVal.obj gk).truthy with
            | true => exact ⟨gk, by simp [JVal.pyOr, hgkt], h7⟩
            | false => exact ⟨[], by simp [JVal.pyOr, hgkt], rfl⟩
          | null => exact ⟨[], by simp [JVal.pyOr, JVal.truthy], rfl⟩
          | bool b =>
            have hb : b = false := by simpa [wfGalleryData, JVal.truthy] using h7
            subst hb
            exact ⟨[], by simp [JVal.pyOr, JVal.truthy], rfl⟩
          | num n =>
            have hn : n = 0 := by simpa [wfGalleryData, JVal.truthy] using h7
            subst hn
            exact ⟨[], by simp [JVal.pyOr, JVal.truthy], rfl⟩
          | str s =>
            have hs : s.isEmpty = true := by
              simpa [wfGalleryData, JVal.truthy] using h7
            exact ⟨[], by simp [JVal.pyOr, JVal.truthy, hs], rfl⟩
          | arr xs =>
            have hs : xs.isEmpty = true := by
              simpa [wfGalleryData, JVal.truthy] using h7
            exact ⟨[], by simp [JVal.pyOr, JVal.truthy, hs], rfl⟩
      obtain ⟨gk, hgke, hgki⟩ := hgd
      have hitems : ∃ xs, (objGet? gk "items").getD (.arr []) = .arr xs ∧
          xs.all wfGalleryItemVal = true := by
        unfold wfOpt at hgki
        cases hi : objGet? gk "items" with
        | none => exact ⟨[], rfl, rfl⟩
        | some iv =>
          rw [hi] at hgki
          cases iv with
          | arr xs => exact ⟨xs, rfl, by simpa using hgki⟩
          | null => cases hgki
          | bool b => cases hgki
          | num n => cases hgki
          | str s => cases hgki
          | obj o => cases hgki
      obtain ⟨xs, hxs, hxsw⟩ := hitems
      obtain ⟨l, hl⟩ := galleryLoop_wf_ok mmv meta hwfmm xs hxsw
      refine ⟨l, ?_⟩
      simp [JVal.index, hmmv, JVal.get, hgke, hxs, pyIter, hl]

theorem pyLower_or_empty_ok (v : JVal) (h : strIfTruthyB v = true) :
    ∃ ds, pyLower (v.pyOr (.str "")) = .ok ds := by
  rcases strIfTruthy_cases h with hf | ⟨s, rfl⟩
  · unfold JVal.pyOr
    rw [hf]
    exact ⟨_, rfl⟩
  · unfold JVal.pyOr
    cases ht : (JVal.str s).truthy <;> exact ⟨_, rfl⟩

theorem pyOr_str_always (s : String) :
    ∃ t, (JVal.str s).pyOr (.str "") = .str t := by
  unfold JVal.pyOr
  cases ht : (JVal.str s).truthy <;> exact ⟨_, rfl⟩

theorem pyOr_mediaVal (v : JVal) (h : wfMediaVal v = true) :
    ∃ mk, v.pyOr (.obj []) = .obj mk ∧ wfMediaVal (.obj mk) = true := by
  cases v with
  | obj mk =>
    cases ht : (JVal.obj mk).truthy with
    | true => exact ⟨mk, by simp [JVal.pyOr, ht], h⟩
    | false => exact ⟨[], by simp [JVal.pyOr, ht], rfl⟩
  | null => exact ⟨[], by simp [JVal.pyOr, JVal.truthy], rfl⟩
  | bool b =>
    have hb : (JVal.bool b).truthy = false := by
      simpa [wfMediaVal] using h
    exact ⟨[], by simp [JVal.pyOr, hb], rfl⟩
  | num n =>
    have hb : (JVal.num n).truthy = false := by
      simpa [wfMediaVal] using h
    exact ⟨[], by simp [JVal.pyOr, hb], rfl⟩
  | str s =>
    have hb : (JVal.str s).truthy = false := by
      simpa [wfMediaVal] using h
    exact ⟨[], by simp [JVal.pyOr, hb], rfl⟩
  | arr xs =>
    have hb : (JVal.arr xs).truthy = false := by
      simpa [wfMediaVal] using h
    exact ⟨[], by simp [JVal.pyOr, hb], rfl⟩

theorem pyOr_mediaEmbed (v : JVal) (h : wfMediaEmbed v = true) :
    ∃ mk, v.pyOr (.obj []) = .obj mk ∧ wfOpt mk "content" strIfTruthyB = true := by
  cases v with
  | obj mk =>
    cases ht : (JVal.obj mk).truthy with
    | true => exact ⟨mk, by simp [JVal.pyOr, ht], h⟩
    | false => exact ⟨[], by simp [JVal.pyOr, ht], rfl⟩
  | null => exact ⟨[], by simp [JVal.pyOr, JVal.truthy], rfl⟩
  | bool b =>
    have hb : (JVal.bool b).truthy = false := by
      simpa [wfMediaEmbed] using h
    exact ⟨[], by simp [JVal.pyOr, hb], rfl⟩
  | num n =>
    have hb : (JVal.num n).truthy = false := by
      simpa [wfMediaEmbed] using h
    exact ⟨[], by simp [JVal.pyOr, hb], rfl⟩
  | str s =>
    have hb : (JVal.str s).truthy = false := by
      simpa [wfMediaEmbed] using h
    exact ⟨[], by simp [JVal.pyOr, hb], rfl⟩
  | arr xs =>
    have hb : (JVal.arr xs).truthy = false := by
      simpa [wfMediaEmbed] using h
    exact ⟨[], by simp [JVal.pyOr, hb], rfl⟩

theorem oembedVal_or (v : JVal)
    (h : (match v with
          | JVal.obj okvs => wfOembedObj okvs
          | w => !w.truthy) = true) :
    ∃ okv, v.pyOr (.obj []) = .obj okv ∧ wfOembedObj okv = true := by
  cases v with
  | obj okvs =>
    cases ht : (JVal.obj okvs).truthy with
    | true => exact ⟨okvs, by simp [JVal.pyOr, ht], h⟩
    | false => exact ⟨[], by simp [JVal.pyOr, ht], rfl⟩
  | null => exact ⟨[], by simp [JVal.pyOr, JVal.truthy], rfl⟩
  | bool b =>
    have hb : (JVal.bool b).truthy = false := by simpa using h
    exact ⟨[], by simp [JVal.pyOr, hb], rfl⟩
  | num n =>
    have hb : (JVal.num n).truthy = false := by simpa using h
    exact ⟨[], by simp [JVal.pyOr, hb], rfl⟩
  | str s =>
    have hb : (JVal.str s).truthy = false := by simpa using h
    exact ⟨[], by simp [JVal.pyOr, hb], rfl⟩
  | arr xs =>
    have hb : (JVal.arr xs).truthy = false := by simpa using h
    exact ⟨[], by simp [JVal.pyOr, hb], rfl⟩

theorem redgifsOembed_ok (mkv smkv : List (String × JVal))
    (hm : wfMediaVal (.obj mkv) = true) (hsm : wfMediaVal (.obj smkv) = true) :
    ∃ okv, redgifsOembed (.obj mkv) (.obj smkv) = .ok (.obj okv) ∧
      wfOembedObj okv = true := by
  have hsmo : (match (objGet? smkv "oembed").getD .null with
      | JVal.obj okvs => wfOembedObj okvs
      | w => !w.truthy) = true := by
    have h2 : wfOpt smkv "oembed" (fun o =>
        match o with
        | JVal.obj okvs => wfOembedObj okvs
        | v => !v.truthy) = true := by
      unfold wfMediaVal at hsm
      rw [Bool.and_eq_true, Bool.and_eq_true] at hsm
      exact hsm.1.1
    exact wfOpt_getD_null rfl h2
  have hmo : (match (objGet? mkv "oembed").getD .null with
      | JVal.obj okvs => wfOembedObj okvs
      | w => !w.truthy) = true := by
    have h2 : wfOpt mkv "oembed" (fun o =>
        match o with
        | JVal.obj okvs => wfOembedObj okvs
        | v => !v.truthy) = true := by
      unfold wfMediaVal at hm
      rw [Bool.and_eq_true, Bool.and_eq_true] at hm
      exact hm.1.1
    exact wfOpt_getD_null rfl h2
  obtain ⟨o1, ho1, ho1wf⟩ := oembedVal_or _ hsmo
  obtain ⟨o2, ho2, ho2wf⟩ := oembedVal_or _ hmo
  unfold redgifsOembed redgifsOembed1
  simp only [isObjB, if_true, JVal.get, ho1]
  cases ht1 : (JVal.obj o1).truthy with
  | true => exact ⟨o1, by simp [ht1], ho1wf⟩
  | false => exact ⟨o2, by simp [ht1, JVal.get, ho2], ho2wf⟩

theorem redgifsContentHtml_ok (mekv okv : List (String × JVal))
    (hme : wfOpt mekv "content" strIfTruthyB = true)
    (ho : wfOembedObj okv = true) :
    ∃ s, redgifsContentHtml (.obj mekv) (.obj okv) = .ok (.str s) := by
  have hhtml : wfOpt okv "html" strIfTruthyB = true := by
    unfold wfOembedObj at ho
    rw [Bool.and_eq_true, Bool.and_eq_true] at ho
    exact ho.1.1
  have helse : ∃ s, ((objGet? okv "html").getD (.str "")).pyOr (.str "") = .str s := by
    unfold wfOpt at hhtml
    cases hh : objGet? okv "html" with
    | none => exact ⟨"", rfl⟩
    | some v =>
      rw [hh] at hhtml
      rcases strIfTruthy_cases hhtml with hf | ⟨s, rfl⟩
      · exact ⟨"", by simp [JVal.pyOr, hf]⟩
      · simpa using pyOr_str_always s
  obtain ⟨es, hes⟩ := helse
  unfold redgifsContentHtml
  simp only [JVal.get]
  cases hc : objGet? mekv "content" with
  | none =>
    simp only [hc, Option.getD_none]
    have ht : (JVal.str "").truthy = false := by decide
    exact ⟨es, by simp [ht, hes]⟩
  | some cv =>
    simp only [hc, Option.getD_some]
    have hcv : strIfTruthyB cv = true := by
      unfold wfOpt at hme
      rw [hc] at hme
      simpa using hme
    rcases strIfTruthy_cases hcv with hf | ⟨s, rfl⟩
    · exact ⟨es, by simp [hf, hes]⟩
    · cases ht : (JVal.str s).truthy with
      | true => exact ⟨s, by simp [ht]⟩
      | false => exact ⟨es, by simp [ht, hes]⟩

theorem providerName_str (okv : List (String × JVal))
    (ho : wfOpt okv "provider_name" strIfTruthyB = true)
    (ht : ((objGet? okv "provider_name").getD .null).truthy = true) :
    ∃ s, (objGet? okv "provider_name").getD (.str "") = .str s := by
  cases hpv : objGet? okv "provider_name" with
  | none => rw [hpv] at ht; simp [JVal.truthy] at ht
  | some v =>
    rw [hpv] at ht
    unfold wfOpt at ho
    rw [hpv] at ho
    rcases strIfTruthy_cases ho with hf | ⟨s, rfl⟩
    · simp only [Option.getD_some] at ht
      rw [hf] at ht
      exact absurd ht (by simp)
    · exact ⟨s, rfl⟩

theorem redgifsDetected_ok (domain us cs : String) (smkv okv : List (String × JVal))
    (ho : wfOpt okv "provider_name" strIfTruthyB = true) :
    ∃ b, redgifsDetected domain (.str us) (.str cs) (.obj smkv) (.obj okv) = .ok b := by
  have hdet1 : ∃ d1, (if hasSub "redgifs" domain then (Except.ok true : Except PyErr Bool)
      else
        match pyIn "redgifs.com" (JVal.str us) with
        | .error e => .error e
        | .ok b =>
          if b then .ok true
          else pyIn "redgifs.com" (JVal.str cs)) = .ok d1 := by
    cases h1 : hasSub "redgifs" domain with
    | true => exact ⟨true, by simp [h1]⟩
    | false =>
      cases h2 : hasSub "redgifs.com" us with
      | true => exact ⟨true, by simp [h1, h2, pyIn]⟩
      | false => exact ⟨hasSub "redgifs.com" cs, by simp [h1, h2, pyIn]⟩
  obtain ⟨d1, hd1⟩ := hdet1
  cases hpn : ((objGet? okv "provider_name").getD .null).truthy with
  | false =>
    exact ⟨d1 || eqStr ((objGet? smkv "type").getD .null) "redgifs.com",
      by simp [redgifsDetected, hd1, JVal.get, hpn]⟩
  | true =>
    obtain ⟨s, hs⟩ := providerName_str okv ho hpn
    exact ⟨(d1 || eqStr ((objGet? smkv "type").getD .null) "redgifs.com") ||
        hasSub "redgif" (lowerStr s),
      by simp [redgifsDetected, hd1, JVal.get, hpn, hs, pyLower]⟩

theorem redgifs_id_wf_ok (v : JVal) (h : strIfTruthyB v = true) :
    ∃ o, extract_redgifs_id_from_url v = .ok o := by
  rcases strIfTruthy_cases h with hf | ⟨s, rfl⟩
  · exact ⟨none, by simp [extract_redgifs_id_from_url, hf]⟩
  · cases ht : (JVal.str s).truthy with
    | false => exact ⟨none, by simp [extract_redgifs_id_from_url, ht]⟩
    | true =>
      cases hr : reSearch matchRedgifsWatchAt s.data with
      | some r =>
        exact ⟨some r, by simp [extract_redgifs_id_from_url, ht, asStr, hr]⟩
      | none =>
        exact ⟨reSearch matchPosterAt s.data,
          by simp [extract_redgifs_id_from_url, ht, asStr, hr]⟩

theorem redgifsFindId_ok (us cs : String) (okv : List (String × JVal))
    (ho : wfOembedObj okv = true) :
    ∃ o, redgifsFindId (.str us) (.str cs) (.obj okv) = .ok o := by
  have hthumb : wfOpt okv "thumbnail_url" strIfTruthyB = true := by
    unfold wfOembedObj at ho
    rw [Bool.and_eq_true, Bool.and_eq_true] at ho
    exact ho.2
  obtain ⟨o1, ho1⟩ := redgifs_id_wf_ok (.str us) (by simp [strIfTruthyB, isStrB])
  cases o1 with
  | some r => exact ⟨some r, by simp [redgifsFindId, ho1]⟩
  | none =>
    obtain ⟨o2, ho2⟩ := redgifs_id_wf_ok (.str cs) (by simp [strIfTruthyB, isStrB])
    cases o2 with
    | some r => exact ⟨some r, by simp [redgifsFindId, ho1, ho2]⟩
    | none =>
      have htu : ∃ tv, (objGet? okv "thumbnail_url").getD (.str "") = tv ∧
          strIfTruthyB tv = true := by
        unfold wfOpt at hthumb
        cases hk : objGet? okv "thumbnail_url" with
        | none => exact ⟨.str "", rfl, by simp [strIfTruthyB, isStrB]⟩
        | some v => rw [hk] at hthumb; exact ⟨v, rfl, by simpa using hthumb⟩
      obtain ⟨tv, htv, htvwf⟩ := htu
      obtain ⟨o3, ho3⟩ := redgifs_id_wf_ok tv htvwf
      exact ⟨o3, by simp [redgifsFindId, ho1, ho2, JVal.get, htv, ho3]⟩

theorem extract_redgifs_media_ok (kvs : List (String × JVal)) (meta : PostMeta)
    (h1 : wfOpt kvs "domain" strIfTruthyB = true)
    (h2 : wfOpt kvs "url_overridden_by_dest" isStrB = true)
    (h3 : wfOpt kvs "media" wfMediaVal = true)
    (h4 : wfOpt kvs "secure_media" wfMediaVal = true)
    (h5 : wfOpt kvs "media_embed" wfMediaEmbed = true) :
    ∃ l, extract_redgifs_media (.obj kvs) meta = .ok l := by
  cases hdt : (JVal.obj kvs).truthy with
  | false => exact ⟨[], by simp [extract_redgifs_media, hdt]⟩
  | true =>
    have hd0 : strIfTruthyB ((objGet? kvs "domain").getD .null) = true :=
      wfOpt_getD_null rfl h1
    obtain ⟨ds, hds⟩ := pyLower_or_empty_ok _ hd0
    have hu0 : ∃ t, ((objGet? kvs "url_overridden_by_dest").getD (.str "")).pyOr
        (.str "") = .str t := by
      obtain ⟨s, hs⟩ := getD_str_of_wf h2
      rw [hs]
      exact pyOr_str_always s
    obtain ⟨us, hus⟩ := hu0
    have hm0 : wfMediaVal ((objGet? kvs "media").getD .null) = true :=
      wfOpt_getD_null rfl h3
    obtain ⟨mkv, hmkv, hmwf⟩ := pyOr_mediaVal _ hm0
    have hsm0 : wfMediaVal ((objGet? kvs "secure_media").getD .null) = true :=
      wfOpt_getD_null rfl h4
    obtain ⟨smkv, hsmkv, hsmwf⟩ := pyOr_mediaVal _ hsm0
    have hme0 : wfMediaEmbed ((objGet? kvs "media_embed").getD .null) = true :=
      wfOpt_getD_null rfl h5
    obtain ⟨mekv, hmekv, hmewf⟩ := pyOr_mediaEmbed _ hme0
    obtain ⟨okv, hoe, howf⟩ := redgifsOembed_ok mkv smkv hmwf hsmwf
    obtain ⟨cs, hch⟩ := redgifsContentHtml_ok mekv okv hmewf howf
    have hopn : wfOpt okv "provider_name" strIfTruthyB = true := by
      unfold wfOembedObj at howf
      rw [Bool.and_eq_true, Bool.and_eq_true] at howf
      exact howf.1.2
    obtain ⟨db, hdet⟩ := redgifsDetected_ok ds us cs smkv okv hopn
    obtain ⟨ro, hfind⟩ := redgifsFindId_ok us cs okv howf
    cases db with
    | false =>
      exact ⟨[], by simp [extract_redgifs_media, hdt, JVal.get, hds, hus, hmkv,
        hsmkv, hmekv, hoe, hch, hdet]⟩
    | true =>
      cases ro with
      | none =>
        exact ⟨[], by simp [extract_redgifs_media, hdt, JVal.get, hds, hus, hmkv,
          hsmkv, hmekv, hoe, hch, hdet, hfind]⟩
      | some rid =>
        exact ⟨[redgifsDesc meta rid], by simp [extract_redgifs_media, hdt,
          JVal.get, hds, hus, hmkv, hsmkv, hmekv, hoe, hch, hdet, hfind]⟩

/-- C1: the claim is refuted as stated — a present but null-valued
`url_overridden_by_dest` makes `extract_single_image` call `.endswith` on
`None`, so `extract_reddit_media` raises an `AttributeError` instead of
yielding no descriptor. -/
theorem c1_counterexample :
    extract_reddit_media nullUrlPost = .error .attributeError := rfl

/-- C1 (amended): for every post JSON whose `data` object is well-typed
(every *present* field carries a value of the shape the extractor expects:
string-or-falsy `domain`, string `url_overridden_by_dest`, dict-or-falsy
`media`/`secure_media`/`media_embed` with well-typed nested objects,
well-formed `media_metadata`/`gallery_data`/`preview`), `extract_reddit_media`
and every rule in its chain return normally — in particular every *missing*
key is defensive and can never raise. -/
theorem c1_extraction_total (post : JVal) (h : WFpost post = true) :
    ∃ l, extract_reddit_media post = .ok l := by
  cases post with
  | obj pkvs =>
    have h0 : wfOpt pkvs "data" (fun d => isObjB d && WFdata d) = true := h
    have hd : (isObjB ((objGet? pkvs "data").getD (.obj [])) &&
        WFdata ((objGet? pkvs "data").getD (.obj []))) = true := by
      unfold wfOpt at h0
      cases hk : objGet? pkvs "data" with
      | none => rfl
      | some v => rw [hk] at h0; simpa using h0
    cases hdv : (objGet? pkvs "data").getD (.obj []) with
    | obj dkvs =>
      rw [hdv] at hd
      have hwf : WFdata (.obj dkvs) = true := by
        rw [Bool.and_eq_true] at hd
        exact hd.2
      unfold WFdata at hwf
      simp only [Bool.and_eq_true] at hwf
      obtain ⟨⟨⟨⟨⟨⟨⟨h1, h2⟩, h3⟩, h4⟩, h5⟩, h6⟩, h7⟩, h8⟩ := hwf
      obtain ⟨m, hm⟩ : ∃ m, metaOf (.obj dkvs) = .ok m := ⟨_, metaOf_obj dkvs⟩
      obtain ⟨l1, hl1⟩ := extract_redgifs_media_ok dkvs m h1 h2 h3 h4 h5
      obtain ⟨l2, hl2⟩ := extract_gallery_media_ok dkvs m h6 h7
      obtain ⟨l3, hl3⟩ := extract_single_image_ok dkvs m h2
      obtain ⟨l4, hl4⟩ := extract_single_video_ok dkvs m h3 h4
      obtain ⟨l5, hl5⟩ := extract_fallback_preview_ok dkvs m h8
      exact ⟨l1 ++ l2 ++ l3 ++ l4 ++ l5, by
        simp [extract_reddit_media, JVal.get, hdv, hm, hl1, hl2, hl3, hl4, hl5]⟩
    | null => rw [hdv] at hd; exact absurd hd (by simp [isObjB])
    | bool b => rw [hdv] at hd; exact absurd hd (by simp [isObjB])
    | num n => rw [hdv] at hd; exact absurd hd (by simp [isObjB])
    | str s => rw [hdv] at hd; exact absurd hd (by simp [isObjB])
    | arr xs => rw [hdv] at hd; exact absurd hd (by simp [isObjB])
  | null => exact absurd h (by simp [WFpost])
  | bool b => exact absurd h (by simp [WFpost])
  | num n => exact absurd h (by simp [WFpost])
  | str s => exact absurd h (by simp [WFpost])
  | arr xs => exact absurd h (by simp [WFpost])

/-- C1 witness: the spec's own gallery example is well-typed and extracts
without an exception. -/
theorem c1_extraction_total_witness :
    WFpost galleryExamplePost = true ∧
      ∃ l, extract_reddit_media galleryExamplePost = .ok l :=
  ⟨rfl, c1_extraction_total galleryExamplePost rfl⟩
